import Mathlib

/-!
# ReliableUDP: flow control, session tick and chunking

A shallow embedding of `src/ReliableUDP.cpp`.

* C++ `float` quantities (times, round-trip times, rates) are embedded as exact
  rationals `ℚ`: every comparison and every arithmetic step of the source is kept,
  rounding is not modelled.
* `std::size_t` is embedded as `Nat` with explicit reduction modulo `2 ^ 64`.
* An `unsigned char` is a `Fin 256`; a buffer is a list of them.  An access outside a
  buffer (undefined behaviour in the source) makes the embedded function return `none`.
* Calls into the transport (`connection.IsConnected()` and friends, declared in `Net.h`)
  are inputs of the embedded tick.
-/

/-! ## `class FlowControl` -/

namespace FlowControl

/-- The private `enum Mode` of `FlowControl`. -/
inductive Mode where
  | Good
  | Bad
  deriving DecidableEq, Repr

end FlowControl

/-- The data members of `class FlowControl`. -/
structure FlowControl where
  mode : FlowControl.Mode
  penalty_time : ℚ
  good_conditions_time : ℚ
  penalty_reduction_accumulator : ℚ
  deriving DecidableEq, Repr

namespace FlowControl

/-- `void Reset()`: every member is overwritten. -/
def Reset (_fc : FlowControl) : FlowControl :=
  { mode := Mode.Bad
    penalty_time := 4
    good_conditions_time := 0
    penalty_reduction_accumulator := 0 }

/-- The constant `RTT_Threshold` local to `Update`. -/
def RTT_Threshold : ℚ := 250

/-- The block `if (mode == Good) { ... }` of `Update`, run on a state whose mode is
`Good`.  The `Bool` tells whether the block executed `return`. -/
def Update.goodBlock (deltaTime rtt : ℚ) (fc : FlowControl) : FlowControl × Bool :=
  if rtt > RTT_Threshold then
    let fc1 := { fc with mode := Mode.Bad }
    let fc2 :=
      if fc1.good_conditions_time < 10 ∧ fc1.penalty_time < 60 then
        let fc3 := { fc1 with penalty_time := fc1.penalty_time * 2 }
        if fc3.penalty_time > 60 then { fc3 with penalty_time := 60 } else fc3
      else fc1
    ({ fc2 with good_conditions_time := 0, penalty_reduction_accumulator := 0 }, true)
  else
    let fc1 := { fc with
      good_conditions_time := fc.good_conditions_time + deltaTime
      penalty_reduction_accumulator := fc.penalty_reduction_accumulator + deltaTime }
    if fc1.penalty_reduction_accumulator > 10 ∧ fc1.penalty_time > 1 then
      let fc2 := { fc1 with penalty_time := fc1.penalty_time / 2 }
      let fc3 := if fc2.penalty_time < 1 then { fc2 with penalty_time := 1 } else fc2
      ({ fc3 with penalty_reduction_accumulator := 0 }, false)
    else (fc1, false)

/-- The block `if (mode == Bad) { ... }` of `Update`, run on a state whose mode is
`Bad`. -/
def Update.badBlock (deltaTime rtt : ℚ) (fc : FlowControl) : FlowControl :=
  let fc1 :=
    if rtt ≤ RTT_Threshold then
      { fc with good_conditions_time := fc.good_conditions_time + deltaTime }
    else { fc with good_conditions_time := 0 }
  if fc1.good_conditions_time > fc1.penalty_time then
    { fc1 with
      good_conditions_time := 0
      penalty_reduction_accumulator := 0
      mode := Mode.Good }
  else fc1

/-- `void Update(float deltaTime, float rtt)`: the two blocks in sequence, the second one
skipped when the first one returned. -/
def Update (deltaTime rtt : ℚ) (fc : FlowControl) : FlowControl :=
  let r := if fc.mode = Mode.Good then Update.goodBlock deltaTime rtt fc else (fc, false)
  if r.2 then r.1
  else if r.1.mode = Mode.Bad then Update.badBlock deltaTime rtt r.1
  else r.1

/-- `float GetSendRate()`: the returned rate together with the object after the call. -/
def GetSendRate (fc : FlowControl) : ℚ × FlowControl :=
  (if fc.mode = Mode.Good then 30 else 10, fc)

/-- A call made on a `FlowControl` object by its owner. -/
inductive Call where
  | update (deltaTime rtt : ℚ)
  | reset
  deriving Repr

/-- The effect of one call. -/
def Call.run : Call → FlowControl → FlowControl
  | Call.update deltaTime rtt, fc => Update deltaTime rtt fc
  | Call.reset, fc => Reset fc

/-- A finite sequence of calls, made in order. -/
def runCalls (calls : List Call) (fc : FlowControl) : FlowControl :=
  calls.foldl (fun s c => c.run s) fc

/-- The calls `Update(deltaTime, rtt)` for the samples `rtts`, made in order. -/
def runUpdates (deltaTime : ℚ) (rtts : List ℚ) (fc : FlowControl) : FlowControl :=
  rtts.foldl (fun s rtt => Update deltaTime rtt s) fc

/-- The range `[1, 60]` of the penalty time. -/
def PenaltyInRange (fc : FlowControl) : Prop :=
  1 ≤ fc.penalty_time ∧ fc.penalty_time ≤ 60

instance (fc : FlowControl) : Decidable (PenaltyInRange fc) := by
  unfold PenaltyInRange; infer_instance

end FlowControl

/-! ## The head of one tick of the session loop in `main` -/

namespace main

/-- The local `enum Mode` of `main`: the role of the process. -/
inductive Mode where
  | Client
  | Server
  deriving DecidableEq, Repr

/-- The constant `DeltaTime`. -/
def DeltaTime : ℚ := 1 / 30

/-- What the transport answers during the head of one tick (lines 232 to 256): one
answer per call site of `connection.IsConnected()`, the answer of
`connection.ConnectFailed()`, and the round-trip time in seconds. -/
structure Polled where
  isConnectedAtUpdate : Bool
  isConnectedAtDrop : Bool
  isConnectedAtConnect : Bool
  connectFailed : Bool
  roundTripTime : ℚ
  deriving DecidableEq, Repr

/-- The variables of `main` that the head of a tick reads and writes, the send rate it
computes, and whether it left the loop through `break`.  The rest of the tick (lines 260
to 339) assigns neither `connected` nor `flowControl`, so the values here are the ones at
the end of the tick. -/
structure Head where
  connected : Bool
  flowControl : FlowControl
  sendRate : ℚ
  exited : Bool
  deriving DecidableEq, Repr

/-- Lines 232 to 256 of `main`: update flow control, read the send rate, detect changes
of the connection state. -/
def tickHead (mode : Mode) (t : Polled) (connected : Bool) (flowControl : FlowControl) :
    Head :=
  let fc1 :=
    if t.isConnectedAtUpdate then
      FlowControl.Update DeltaTime (t.roundTripTime * 1000) flowControl
    else flowControl
  let rate := FlowControl.GetSendRate fc1
  let dropped : Bool := decide (mode = Mode.Server) && connected && !t.isConnectedAtDrop
  let fc2 := if dropped then FlowControl.Reset rate.2 else rate.2
  let connected1 := if dropped then false else connected
  let connected2 := if !connected1 && t.isConnectedAtConnect then true else connected1
  { connected := connected2
    flowControl := fc2
    sendRate := rate.1
    exited := !connected2 && t.connectFailed }

end main

/-! ## `readVectorToCharArray` -/

/-- An `unsigned char`. -/
abbrev Byte := Fin 256

/-- Subtraction of two `std::size_t` values: the difference modulo `2 ^ 64`. -/
def sizeSub (a b : Nat) : Nat := (a + (2 ^ 64 - b % 2 ^ 64)) % 2 ^ 64

namespace readVectorToCharArray

/-- The local `bytesToCopy`, from `data.size()` and `startIndex`. -/
def bytesToCopy (size startIndex : Nat) : Nat :=
  if sizeSub size startIndex < 256 then sizeSub size startIndex else 256

/-- The `for` loop with `n` iterations left, standing at index `i`: each iteration reads
`data[startIndex + i]` and stores it in `output[i]`. -/
def copy (data : List Byte) (startIndex : Nat) : Nat → Nat → List Byte → Option (List Byte)
  | 0, _, output => some output
  | n + 1, i, output =>
    match data[(startIndex + i) % 2 ^ 64]? with
    | none => none
    | some b =>
      if i < output.length then copy data startIndex n (i + 1) (output.set i b) else none

end readVectorToCharArray

/-- `void readVectorToCharArray(data, output, startIndex)`: the content of `output` after
the call, `none` when the call reads or writes outside a buffer. -/
def readVectorToCharArray (data : List Byte) (output : List Byte) (startIndex : Nat) :
    Option (List Byte) :=
  readVectorToCharArray.copy data startIndex
    (readVectorToCharArray.bytesToCopy data.length startIndex) 0 output

/-- The read offset before call number `k` (counted from 0) of a sender that starts at
offset 0 and advances the offset by `bytesToCopy` after each call. -/
def chunkOffset (data : List Byte) : Nat → Nat
  | 0 => 0
  | k + 1 => chunkOffset data k + readVectorToCharArray.bytesToCopy data.length (chunkOffset data k)

/-- The number of bytes call number `k` of that sender copies. -/
def chunkSize (data : List Byte) (k : Nat) : Nat :=
  readVectorToCharArray.bytesToCopy data.length (chunkOffset data k)

/-- The bytes call number `k` of that sender leaves at the front of `output`. -/
def chunkBytes (data : List Byte) (output : List Byte) (k : Nat) : Option (List Byte) :=
  (readVectorToCharArray data output (chunkOffset data k)).map
    (fun out => out.take (chunkSize data k))

/-- The sizes of the first `n` calls of that sender. -/
def chunkSizes (data : List Byte) (n : Nat) : List Nat :=
  (List.range n).map (chunkSize data)

/-! ## The body of one tick of the session loop in `main` -/

/-- `memset(buffer, value, count)`: the first `count` bytes become `value`. -/
def memset (buffer : List Byte) (value : Byte) (count : Nat) : List Byte :=
  List.replicate count value ++ buffer.drop count

/-- `void writeCharArrayToFile(fileName, data, dataSize)` on the content of the file:
`isOpen` is the answer of `file.is_open()`.  The stream is opened without append mode, so
a file that opens holds the `dataSize` written bytes and nothing else; a failing write is
not modelled. -/
def writeCharArrayToFile (isOpen : Bool) (data : List Byte) (dataSize : Nat)
    (file : List Byte) : List Byte :=
  if !isOpen then file else data.take dataSize

namespace main

/-- The constant `PacketSize`. -/
def PacketSize : Nat := 256

/-- The heads of successive ticks, one transport answer per tick, up to and including
the first tick that leaves the loop. -/
def runHeads (mode : Mode) : List Polled → Bool → FlowControl → List Head
  | [], _, _ => []
  | t :: ts, connected, flowControl =>
    let h := tickHead mode t connected flowControl
    if h.exited then [h] else h :: runHeads mode ts h.connected h.flowControl

/-- The body of the send loop up to the packet handed to `connection.SendPacket` (lines
265 to 274).  `garbage` is the content of the uninitialised array `packet`. -/
def sendBody (mode : Mode) (binaryContent : List Byte) (startingIndex : Nat)
    (garbage : List Byte) : Option (List Byte) :=
  let filled :=
    if mode = Mode.Client then readVectorToCharArray binaryContent garbage startingIndex
    else some garbage
  filled.map (fun packet => memset packet 0 PacketSize)

/-- The loop `while (sendAccumulator > 1.0f / sendRate)` (lines 263 to 276) with `fuel`
iterations allowed: the accumulator and the packets sent at the end, `none` when the
fuel runs out or the body reads outside a buffer.  `garbage k` is the content of `packet`
before iteration `k`. -/
def sendLoop (mode : Mode) (binaryContent : List Byte) (startingIndex : Nat) (sendRate : ℚ)
    (garbage : Nat → List Byte) : Nat → ℚ → List (List Byte) → Option (ℚ × List (List Byte))
  | 0, sendAccumulator, sent =>
    if sendAccumulator > 1 / sendRate then none else some (sendAccumulator, sent)
  | fuel + 1, sendAccumulator, sent =>
    if sendAccumulator > 1 / sendRate then
      match sendBody mode binaryContent startingIndex (garbage sent.length) with
      | none => none
      | some packet =>
        sendLoop mode binaryContent startingIndex sendRate garbage fuel
          (sendAccumulator - 1 / sendRate) (sent ++ [packet])
    else some (sendAccumulator, sent)

/-- What the send step of one tick leaves: the rate it ran at, the variables
`sendAccumulator` and `startingIndex` after it, and the packets it sent. -/
structure SendTick where
  sendRate : ℚ
  sendAccumulator : ℚ
  startingIndex : Nat
  sent : List (List Byte)
  deriving DecidableEq, Repr

/-- The send step of one tick (lines 260 to 276): add `DeltaTime`, then run the loop.
No statement of it assigns `startingIndex`. -/
def sendStep (mode : Mode) (binaryContent : List Byte) (garbage : Nat → List Byte)
    (fuel : Nat) (sendRate : ℚ) (sendAccumulator : ℚ) (startingIndex : Nat) :
    Option SendTick :=
  (sendLoop mode binaryContent startingIndex sendRate garbage fuel
      (sendAccumulator + DeltaTime) []).map
    (fun r => { sendRate := sendRate, sendAccumulator := r.1,
                startingIndex := startingIndex, sent := r.2 })

/-- The send steps of successive ticks, one send rate per tick. -/
def sendTicks (mode : Mode) (binaryContent : List Byte) (garbage : Nat → List Byte)
    (fuel : Nat) : List ℚ → ℚ → Nat → Option (List SendTick)
  | [], _, _ => some []
  | sendRate :: rates, sendAccumulator, startingIndex =>
    match sendStep mode binaryContent garbage fuel sendRate sendAccumulator startingIndex with
    | none => none
    | some t =>
      (sendTicks mode binaryContent garbage fuel rates t.sendAccumulator t.startingIndex).map
        (fun ts => t :: ts)

/-- What one iteration of the receive loop gets from outside: the value of
`connection.ReceivePacket`, the content of the array `packet` after that call, and
whether `output.txt` can be opened. -/
structure Received where
  bytes_read : Int
  packet : List Byte
  isOpen : Bool
  deriving DecidableEq, Repr

/-- The receive loop (lines 278 to 292) on the content of `output.txt`, fed with the
answers of the transport in order: `none` when the answers end before one of them is 0. -/
def receiveLoop : List Received → List Byte → Option (List Byte)
  | [], _ => none
  | r :: rs, file =>
    if r.bytes_read > 0 then
      receiveLoop rs (writeCharArrayToFile r.isOpen r.packet 256 file)
    else if r.bytes_read = 0 then some file
    else receiveLoop rs file

/-- Float division, `none` for a zero divisor. -/
def checkedDiv (a b : ℚ) : Option ℚ := if b = 0 then none else some (a / b)

/-- The loss percentage printed by the report (line 333), from the two `unsigned int`
counters. -/
def lossPercentage (sent_packets lost_packets : Nat) : Option ℚ :=
  if (sent_packets : ℚ) > 0 then
    (checkedDiv (lost_packets : ℚ) (sent_packets : ℚ)).map (fun q => q * 100)
  else some 0

/-- The loop `while (statsAccumulator >= 0.25f && connection.IsConnected())` (lines 320
to 337) with `fuel` iterations allowed: the accumulator and the number of report lines at
the end.  `isConnected k` is the answer of the transport after `k` report lines. -/
def statsLoop (isConnected : Nat → Bool) : Nat → ℚ → Nat → Option (ℚ × Nat)
  | 0, statsAccumulator, printed =>
    if statsAccumulator ≥ 1 / 4 ∧ isConnected printed = true then none
    else some (statsAccumulator, printed)
  | fuel + 1, statsAccumulator, printed =>
    if statsAccumulator ≥ 1 / 4 ∧ isConnected printed = true then
      statsLoop isConnected fuel (statsAccumulator - 1 / 4) (printed + 1)
    else some (statsAccumulator, printed)

/-- The stats step of one tick (lines 315 to 337): add `DeltaTime`, then run the loop. -/
def statsStep (isConnected : Nat → Bool) (fuel : Nat) (statsAccumulator : ℚ) :
    Option (ℚ × Nat) :=
  statsLoop isConnected fuel (statsAccumulator + DeltaTime) 0

/-- The stats steps of `ticks` successive ticks of a session whose transport is connected
all along: the number of report lines of each tick. -/
def statsTicksConnected (fuel : Nat) : Nat → ℚ → Option (List Nat)
  | 0, _ => some []
  | ticks + 1, statsAccumulator =>
    match statsStep (fun _ => true) fuel statsAccumulator with
    | none => none
    | some r => (statsTicksConnected fuel ticks r.1).map (fun ns => r.2 :: ns)

end main

/-! ## Flow control: theorems -/

namespace FlowControl

/-- The block for `Good` mode keeps the penalty time in `[1, 60]`. -/
theorem goodBlock_penalty_in_range (deltaTime rtt : ℚ) (fc : FlowControl)
    (h : PenaltyInRange fc) : PenaltyInRange (Update.goodBlock deltaTime rtt fc).1 := by
  obtain ⟨h1, h2⟩ := h
  unfold PenaltyInRange Update.goodBlock
  dsimp only
  split_ifs <;> dsimp only <;> constructor <;> linarith

/-- The block for `Bad` mode never writes the penalty time. -/
theorem badBlock_penalty_time (deltaTime rtt : ℚ) (fc : FlowControl) :
    (Update.badBlock deltaTime rtt fc).penalty_time = fc.penalty_time := by
  unfold Update.badBlock
  dsimp only
  split_ifs <;> rfl

/-- One `Update` keeps the penalty time in `[1, 60]`. -/
theorem Update_penalty_in_range (deltaTime rtt : ℚ) (fc : FlowControl)
    (h : PenaltyInRange fc) : PenaltyInRange (Update deltaTime rtt fc) := by
  have hg := goodBlock_penalty_in_range deltaTime rtt fc h
  unfold Update
  dsimp only
  split_ifs <;> first
    | exact hg
    | exact h
    | (unfold PenaltyInRange; rw [badBlock_penalty_time]; first | exact hg | exact h)

/-- `Reset` puts the penalty time in `[1, 60]`. -/
theorem Reset_penalty_in_range (fc : FlowControl) : PenaltyInRange (Reset fc) := by
  unfold PenaltyInRange Reset
  norm_num

/-- One call keeps the penalty time in `[1, 60]`. -/
theorem Call_run_penalty_in_range (c : Call) (fc : FlowControl)
    (h : PenaltyInRange fc) : PenaltyInRange (c.run fc) := by
  cases c with
  | update deltaTime rtt => exact Update_penalty_in_range deltaTime rtt fc h
  | reset => exact Reset_penalty_in_range fc

/-- A sequence of calls keeps the penalty time in `[1, 60]`. -/
theorem runCalls_penalty_in_range (calls : List Call) :
    ∀ fc : FlowControl, PenaltyInRange fc → PenaltyInRange (runCalls calls fc) := by
  induction calls with
  | nil => intro fc h; exact h
  | cons c rest ih =>
    intro fc h
    exact ih (c.run fc) (Call_run_penalty_in_range c fc h)

/-- C1: from the `Reset` state, and from any state whose penalty time lies in `[1, 60]`,
every finite sequence of `Update` calls (any `deltaTime`, any `rtt`) and `Reset` calls
leaves the penalty time in `[1, 60]`. -/
theorem penalty_bounds_invariant (calls : List Call) :
    (∀ fc0 : FlowControl,
        1 ≤ (runCalls calls (Reset fc0)).penalty_time ∧
        (runCalls calls (Reset fc0)).penalty_time ≤ 60) ∧
    (∀ fc : FlowControl, 1 ≤ fc.penalty_time → fc.penalty_time ≤ 60 →
        1 ≤ (runCalls calls fc).penalty_time ∧ (runCalls calls fc).penalty_time ≤ 60) :=
  ⟨fun fc0 => runCalls_penalty_in_range calls _ (Reset_penalty_in_range fc0),
   fun fc h1 h2 => runCalls_penalty_in_range calls fc ⟨h1, h2⟩⟩

/-- C1 at a concrete run: a `Good` state with penalty 50 that drops, is reset, and drops
again after a promotion. -/
theorem penalty_bounds_invariant_witness :
    (1 : ℚ) ≤ (FlowControl.mk Mode.Good 50 0 0).penalty_time ∧
    (FlowControl.mk Mode.Good 50 0 0).penalty_time ≤ 60 ∧
    1 ≤ (runCalls [Call.update (1 / 30) 300, Call.update 100 10, Call.update (1 / 30) 300]
          (FlowControl.mk Mode.Good 50 0 0)).penalty_time ∧
    (runCalls [Call.update (1 / 30) 300, Call.update 100 10, Call.update (1 / 30) 300]
          (FlowControl.mk Mode.Good 50 0 0)).penalty_time ≤ 60 :=
  ⟨by norm_num, by norm_num,
   (penalty_bounds_invariant
      [Call.update (1 / 30) 300, Call.update 100 10, Call.update (1 / 30) 300]).2
      (FlowControl.mk Mode.Good 50 0 0) (by norm_num) (by norm_num)⟩

/-- In `Bad` mode a sample at or below the threshold adds `deltaTime` to the dwell and
promotes when the dwell exceeds the penalty time. -/
theorem Update_bad_le (deltaTime rtt p g a : ℚ) (h : rtt ≤ 250) :
    Update deltaTime rtt (FlowControl.mk Mode.Bad p g a) =
      if g + deltaTime > p then FlowControl.mk Mode.Good p 0 0
      else FlowControl.mk Mode.Bad p (g + deltaTime) a := by
  have h' : rtt ≤ RTT_Threshold := h
  simp only [Update, Update.badBlock, h', if_true]
  simp

/-- In `Good` mode a sample at or below the threshold keeps the mode. -/
theorem Update_good_le_mode (deltaTime rtt : ℚ) (fc : FlowControl)
    (hm : fc.mode = Mode.Good) (h : rtt ≤ 250) :
    (Update deltaTime rtt fc).mode = Mode.Good := by
  have h' : ¬ rtt > RTT_Threshold := not_lt.mpr h
  unfold Update Update.goodBlock
  simp only [hm, h', if_true, if_false]
  split_ifs <;> simp_all

/-- One more sample appended to a run of `Update` calls. -/
theorem runUpdates_concat (deltaTime : ℚ) (rtts : List ℚ) (rtt : ℚ) (fc : FlowControl) :
    runUpdates deltaTime (rtts ++ [rtt]) fc =
      Update deltaTime rtt (runUpdates deltaTime rtts fc) := by
  simp [runUpdates, List.foldl_append]

/-- The state after a run of acceptable samples from `Reset`: the dwell is the elapsed
time while that is at most 4, the promotion step leaves both accumulators at 0, and the
mode is `Good` once the elapsed time exceeds 4. -/
theorem runUpdates_reset_le (deltaTime : ℚ) (hd : 0 < deltaTime) (fc0 : FlowControl)
    (rtts : List ℚ) (h : ∀ r ∈ rtts, r ≤ 250) :
    ((rtts.length : ℚ) * deltaTime ≤ 4 →
        runUpdates deltaTime rtts (Reset fc0) =
          FlowControl.mk Mode.Bad 4 ((rtts.length : ℚ) * deltaTime) 0) ∧
    (4 < (rtts.length : ℚ) * deltaTime →
        (runUpdates deltaTime rtts (Reset fc0)).mode = Mode.Good) ∧
    (4 < (rtts.length : ℚ) * deltaTime → ((rtts.length : ℚ) - 1) * deltaTime ≤ 4 →
        runUpdates deltaTime rtts (Reset fc0) = FlowControl.mk Mode.Good 4 0 0) := by
  induction rtts using List.reverseRecOn with
  | nil =>
    refine ⟨fun _ => ?_, fun h4 => ?_, fun h4 => ?_⟩
    · simp [runUpdates, Reset]
    · simp at h4; linarith
    · simp at h4; linarith
  | append_singleton l r ih =>
    have hl : ∀ x ∈ l, x ≤ 250 := fun x hx => h x (List.mem_append_left _ hx)
    have hr : r ≤ 250 := h r (by simp)
    obtain ⟨ih1, ih2, _⟩ := ih hl
    have hlen : ((l ++ [r]).length : ℚ) = (l.length : ℚ) + 1 := by simp
    rw [runUpdates_concat, hlen]
    refine ⟨fun h4 => ?_, fun h4 => ?_, fun h4 hprev => ?_⟩
    · have hle : (l.length : ℚ) * deltaTime ≤ 4 := by nlinarith
      rw [ih1 hle, Update_bad_le _ _ _ _ _ hr]
      have : ¬ ((l.length : ℚ) * deltaTime + deltaTime > 4) := by
        rw [not_lt]; linarith
      rw [if_neg this]
      congr 1
      ring
    · by_cases hle : (l.length : ℚ) * deltaTime ≤ 4
      · rw [ih1 hle, Update_bad_le _ _ _ _ _ hr]
        have : (l.length : ℚ) * deltaTime + deltaTime > 4 := by linarith
        rw [if_pos this]
      · exact Update_good_le_mode _ _ _ (ih2 (not_le.mp hle)) hr
    · have hle : (l.length : ℚ) * deltaTime ≤ 4 := by linarith
      rw [ih1 hle, Update_bad_le _ _ _ _ _ hr]
      have : (l.length : ℚ) * deltaTime + deltaTime > 4 := by linarith
      rw [if_pos this]

/-- C2: with `deltaTime > 0` and every sample at most 250, after the first `n` calls of
`Update` from the `Reset` state the mode is `Good` exactly when `n * deltaTime > 4`; at
the first such `n` both accumulators are 0; and `GetSendRate` returns 10 before that call
and 30 from it on. -/
theorem promotion_exactly_once (deltaTime : ℚ) (hd : 0 < deltaTime) (rtts : List ℚ)
    (h : ∀ r ∈ rtts, r ≤ 250) (fc0 : FlowControl) (n : Nat) (hn : n ≤ rtts.length) :
    ((runUpdates deltaTime (rtts.take n) (Reset fc0)).mode = Mode.Good ↔
        4 < (n : ℚ) * deltaTime) ∧
    (4 < (n : ℚ) * deltaTime → ((n : ℚ) - 1) * deltaTime ≤ 4 →
        (runUpdates deltaTime (rtts.take n) (Reset fc0)).good_conditions_time = 0 ∧
        (runUpdates deltaTime (rtts.take n) (Reset fc0)).penalty_reduction_accumulator = 0) ∧
    (GetSendRate (runUpdates deltaTime (rtts.take n) (Reset fc0))).1 =
        if 4 < (n : ℚ) * deltaTime then 30 else 10 := by
  have hlen : (rtts.take n).length = n := by simp [hn]
  have ht : ∀ r ∈ rtts.take n, r ≤ 250 := fun r hr => h r (List.mem_of_mem_take hr)
  obtain ⟨h1, h2, h3⟩ := runUpdates_reset_le deltaTime hd fc0 (rtts.take n) ht
  rw [hlen] at h1 h2 h3
  have hiff : (runUpdates deltaTime (rtts.take n) (Reset fc0)).mode = Mode.Good ↔
      4 < (n : ℚ) * deltaTime := by
    constructor
    · intro hm
      by_contra hc
      rw [h1 (not_lt.mp hc)] at hm
      exact Mode.noConfusion hm
    · exact h2
  refine ⟨hiff, fun h4 hp => ?_, ?_⟩
  · rw [h3 h4 hp]
    exact ⟨rfl, rfl⟩
  · unfold GetSendRate
    dsimp only
    by_cases h4 : 4 < (n : ℚ) * deltaTime
    · rw [if_pos h4, if_pos (hiff.mpr h4)]
    · rw [if_neg h4, if_neg (fun hm => h4 (hiff.mp hm))]

/-- C2 at `rtt = 100`, `deltaTime = 1/30`, 150 ticks, read at tick 121, the first one
whose elapsed time exceeds 4. -/
theorem promotion_exactly_once_witness :
    (0 : ℚ) < 1 / 30 ∧ (∀ r ∈ List.replicate 150 (100 : ℚ), r ≤ 250) ∧
    121 ≤ (List.replicate 150 (100 : ℚ)).length ∧
    (((runUpdates (1 / 30) ((List.replicate 150 (100 : ℚ)).take 121)
          (Reset (FlowControl.mk Mode.Good 1 1 1))).mode = Mode.Good ↔
        4 < ((121 : Nat) : ℚ) * (1 / 30)) ∧
     (4 < ((121 : Nat) : ℚ) * (1 / 30) → (((121 : Nat) : ℚ) - 1) * (1 / 30) ≤ 4 →
        (runUpdates (1 / 30) ((List.replicate 150 (100 : ℚ)).take 121)
          (Reset (FlowControl.mk Mode.Good 1 1 1))).good_conditions_time = 0 ∧
        (runUpdates (1 / 30) ((List.replicate 150 (100 : ℚ)).take 121)
          (Reset (FlowControl.mk Mode.Good 1 1 1))).penalty_reduction_accumulator = 0) ∧
     (GetSendRate (runUpdates (1 / 30) ((List.replicate 150 (100 : ℚ)).take 121)
          (Reset (FlowControl.mk Mode.Good 1 1 1)))).1 =
        if 4 < ((121 : Nat) : ℚ) * (1 / 30) then 30 else 10) :=
  have hr : ∀ r ∈ List.replicate 150 (100 : ℚ), r ≤ 250 := fun r hr => by
    rw [List.eq_of_mem_replicate hr]; norm_num
  ⟨by norm_num, hr, by simp,
   promotion_exactly_once (1 / 30) (by norm_num) (List.replicate 150 100) hr
     (FlowControl.mk Mode.Good 1 1 1) 121 (by simp)⟩

/-- C3: from a `Good` state, for every `deltaTime`, `Update` leaves the mode `Bad`
exactly when `rtt > 250`; a sample equal to 250 keeps the mode `Good`. -/
theorem good_drop_iff_strict (deltaTime rtt : ℚ) (fc : FlowControl)
    (hm : fc.mode = Mode.Good) :
    ((Update deltaTime rtt fc).mode = Mode.Bad ↔ rtt > 250) ∧
    (rtt = 250 → (Update deltaTime rtt fc).mode = Mode.Good) := by
  have key : (Update deltaTime rtt fc).mode = Mode.Bad ↔ rtt > 250 := by
    constructor
    · intro hb
      by_contra hc
      rw [Update_good_le_mode deltaTime rtt fc hm (not_lt.mp hc)] at hb
      exact Mode.noConfusion hb
    · intro hr
      have hr' : rtt > RTT_Threshold := hr
      unfold Update Update.goodBlock
      simp only [hm, hr', if_true]
      split_ifs <;> rfl
  refine ⟨key, fun h250 => ?_⟩
  exact Update_good_le_mode deltaTime rtt fc hm (le_of_eq h250)

/-- C3 at a `Good` state and a sample of exactly 250. -/
theorem good_drop_iff_strict_witness :
    (FlowControl.mk Mode.Good 4 3 3).mode = Mode.Good ∧
    (((Update (1 / 30) 250 (FlowControl.mk Mode.Good 4 3 3)).mode = Mode.Bad ↔
        (250 : ℚ) > 250) ∧
     ((250 : ℚ) = 250 →
        (Update (1 / 30) 250 (FlowControl.mk Mode.Good 4 3 3)).mode = Mode.Good)) :=
  ⟨rfl, good_drop_iff_strict (1 / 30) 250 (FlowControl.mk Mode.Good 4 3 3) rfl⟩

/-- C4: from a `Good` state a sample above 250 yields mode `Bad` with both accumulators
0; the penalty time becomes `min (2 * penalty_time) 60` when the dwell before the drop
was under 10 and the penalty time under 60, and is unchanged otherwise. -/
theorem drop_effect (deltaTime rtt : ℚ) (fc : FlowControl)
    (hm : fc.mode = Mode.Good) (hr : rtt > 250) :
    (Update deltaTime rtt fc).mode = Mode.Bad ∧
    (Update deltaTime rtt fc).good_conditions_time = 0 ∧
    (Update deltaTime rtt fc).penalty_reduction_accumulator = 0 ∧
    (Update deltaTime rtt fc).penalty_time =
      if fc.good_conditions_time < 10 ∧ fc.penalty_time < 60 then
        min (2 * fc.penalty_time) 60
      else fc.penalty_time := by
  have hr' : rtt > RTT_Threshold := hr
  have hu : Update deltaTime rtt fc = (Update.goodBlock deltaTime rtt fc).1 := by
    unfold Update Update.goodBlock
    simp only [hm, hr', if_true]
  rw [hu]
  unfold Update.goodBlock
  simp only [hr', if_true]
  by_cases hc : fc.good_conditions_time < 10 ∧ fc.penalty_time < 60
  · rw [if_pos hc, if_pos hc]
    by_cases h60 : fc.penalty_time * 2 > 60
    · rw [if_pos h60, min_eq_right (by linarith)]
      exact ⟨rfl, trivial, trivial, rfl⟩
    · rw [if_neg h60, min_eq_left (by linarith)]
      exact ⟨rfl, trivial, trivial, mul_comm _ _⟩
  · rw [if_neg hc, if_neg hc]
    exact ⟨rfl, trivial, trivial, rfl⟩

/-- C4 at penalty 4, dwell 5, `rtt = 300`: the penalty becomes 8 and the mode `Bad`. -/
theorem drop_effect_witness :
    (FlowControl.mk Mode.Good 4 5 5).mode = Mode.Good ∧ (300 : ℚ) > 250 ∧
    (Update (1 / 30) 300 (FlowControl.mk Mode.Good 4 5 5)).mode = Mode.Bad ∧
    (Update (1 / 30) 300 (FlowControl.mk Mode.Good 4 5 5)).good_conditions_time = 0 ∧
    (Update (1 / 30) 300 (FlowControl.mk Mode.Good 4 5 5)).penalty_reduction_accumulator = 0 ∧
    (Update (1 / 30) 300 (FlowControl.mk Mode.Good 4 5 5)).penalty_time = 8 :=
  have h := drop_effect (1 / 30) 300 (FlowControl.mk Mode.Good 4 5 5) rfl (by norm_num)
  ⟨rfl, by norm_num, h.1, h.2.1, h.2.2.1, h.2.2.2.trans (by norm_num)⟩

/-- C5 as stated fails: a `Good` state with penalty 4 and 10 s accumulated, hit by a
sample of 300, keeps penalty 4 where halving would give 2. -/
theorem halving_on_drop_counterexample :
    (FlowControl.mk Mode.Good 4 10 10).mode = Mode.Good ∧
    (FlowControl.mk Mode.Good 4 10 10).penalty_time > 1 ∧
    (FlowControl.mk Mode.Good 4 10 10).penalty_reduction_accumulator + 1 / 30 > 10 ∧
    (Update (1 / 30) 300 (FlowControl.mk Mode.Good 4 10 10)).penalty_time = 4 ∧
    ¬ ((Update (1 / 30) 300 (FlowControl.mk Mode.Good 4 10 10)).penalty_time =
        max ((FlowControl.mk Mode.Good 4 10 10).penalty_time / 2) 1) := by
  have h4 : (Update (1 / 30) 300 (FlowControl.mk Mode.Good 4 10 10)).penalty_time = 4 := by
    norm_num [Update, Update.goodBlock, RTT_Threshold]
  refine ⟨rfl, by norm_num, by norm_num, h4, ?_⟩
  rw [h4]
  norm_num

/-- C5, amended: from a `Good` state with penalty time above 1, an `Update` with
`rtt ≤ 250` that brings the reduction accumulator above 10 leaves the penalty time at
`max (penalty_time / 2) 1`, the reduction accumulator at 0 and the mode `Good`. -/
theorem halving_without_drop (deltaTime rtt : ℚ) (fc : FlowControl)
    (hm : fc.mode = Mode.Good) (hp : fc.penalty_time > 1)
    (ha : fc.penalty_reduction_accumulator + deltaTime > 10) (hr : rtt ≤ 250) :
    (Update deltaTime rtt fc).penalty_time = max (fc.penalty_time / 2) 1 ∧
    (Update deltaTime rtt fc).penalty_reduction_accumulator = 0 ∧
    (Update deltaTime rtt fc).mode = Mode.Good := by
  have hr' : ¬ rtt > RTT_Threshold := not_lt.mpr hr
  unfold Update Update.goodBlock
  simp only [hm, hr', if_true, if_false, ha, hp, and_self]
  by_cases h1 : fc.penalty_time / 2 < 1
  · simp only [h1, if_true]
    refine ⟨?_, ?_, ?_⟩
    · rw [max_eq_right (le_of_lt h1)]; simp
    · simp
    · simp
  · simp only [h1, if_false]
    refine ⟨?_, ?_, ?_⟩
    · rw [max_eq_left (not_lt.mp h1)]; simp
    · simp
    · simp

/-- C5, amended, at penalty 4 and 10 s accumulated with `rtt = 100`: the penalty
becomes 2. -/
theorem halving_without_drop_witness :
    (FlowControl.mk Mode.Good 4 10 10).mode = Mode.Good ∧
    (FlowControl.mk Mode.Good 4 10 10).penalty_time > 1 ∧
    (FlowControl.mk Mode.Good 4 10 10).penalty_reduction_accumulator + 1 / 30 > 10 ∧
    (100 : ℚ) ≤ 250 ∧
    (Update (1 / 30) 100 (FlowControl.mk Mode.Good 4 10 10)).penalty_time = 2 ∧
    (Update (1 / 30) 100 (FlowControl.mk Mode.Good 4 10 10)).penalty_reduction_accumulator
      = 0 ∧
    (Update (1 / 30) 100 (FlowControl.mk Mode.Good 4 10 10)).mode = Mode.Good :=
  have h := halving_without_drop (1 / 30) 100 (FlowControl.mk Mode.Good 4 10 10) rfl
    (by norm_num) (by norm_num) (by norm_num)
  ⟨rfl, by norm_num, by norm_num, by norm_num, h.1.trans (by norm_num), h.2.1, h.2.2⟩

/-- C6: `GetSendRate` returns 30 on every `Good` state and 10 on every `Bad` state,
whatever the penalty and accumulator members are, and leaves the object as it was. -/
theorem GetSendRate_two_values (p g a : ℚ) :
    (GetSendRate (FlowControl.mk Mode.Good p g a)).1 = 30 ∧
    (GetSendRate (FlowControl.mk Mode.Bad p g a)).1 = 10 ∧
    (GetSendRate (FlowControl.mk Mode.Good p g a)).2 = FlowControl.mk Mode.Good p g a ∧
    (GetSendRate (FlowControl.mk Mode.Bad p g a)).2 = FlowControl.mk Mode.Bad p g a := by
  unfold GetSendRate
  simp

/-- C8: from a `Bad` state, with `d` the dwell plus `deltaTime` when `rtt ≤ 250` and 0
when `rtt > 250`: if `d` exceeds the penalty time the result is `Good` with both
accumulators 0, otherwise it is `Bad` with dwell `d`; with a penalty time of at least 0 a
sample above 250 leaves the mode `Bad` with dwell 0. -/
theorem bad_step_reference (deltaTime rtt : ℚ) (fc : FlowControl)
    (hm : fc.mode = Mode.Bad) :
    ((if rtt ≤ 250 then fc.good_conditions_time + deltaTime else 0) > fc.penalty_time →
        (Update deltaTime rtt fc).mode = Mode.Good ∧
        (Update deltaTime rtt fc).good_conditions_time = 0 ∧
        (Update deltaTime rtt fc).penalty_reduction_accumulator = 0) ∧
    (¬ (if rtt ≤ 250 then fc.good_conditions_time + deltaTime else 0) > fc.penalty_time →
        (Update deltaTime rtt fc).mode = Mode.Bad ∧
        (Update deltaTime rtt fc).good_conditions_time =
          if rtt ≤ 250 then fc.good_conditions_time + deltaTime else 0) ∧
    (0 ≤ fc.penalty_time → rtt > 250 →
        (Update deltaTime rtt fc).mode = Mode.Bad ∧
        (Update deltaTime rtt fc).good_conditions_time = 0) := by
  have hu : Update deltaTime rtt fc = Update.badBlock deltaTime rtt fc := by
    unfold Update
    simp [hm]
  rw [hu]
  unfold Update.badBlock RTT_Threshold
  refine ⟨fun hd => ?_, fun hd => ?_, fun hp hr => ?_⟩
  · by_cases hr : rtt ≤ 250
    · rw [if_pos hr] at hd
      simp [hr, hd]
    · rw [if_neg hr] at hd
      simp [hr, hd]
  · by_cases hr : rtt ≤ 250
    · rw [if_pos hr] at hd
      simp [hr, hd, hm]
    · rw [if_neg hr] at hd
      simp [hr, hd, hm]
  · have hr' : ¬ rtt ≤ 250 := not_le.mpr hr
    have hp' : ¬ (0 : ℚ) > fc.penalty_time := not_lt.mpr hp
    simp [hr', hp', hm, not_lt.mpr hp]

/-- C8 at the `Reset` state with one sample of exactly 250. -/
theorem bad_step_reference_witness :
    (FlowControl.mk Mode.Bad 4 0 0).mode = Mode.Bad ∧
    (Update (1 / 30) 250 (FlowControl.mk Mode.Bad 4 0 0)).mode = Mode.Bad ∧
    (Update (1 / 30) 250 (FlowControl.mk Mode.Bad 4 0 0)).good_conditions_time = 1 / 30 :=
  have h := (bad_step_reference (1 / 30) 250 (FlowControl.mk Mode.Bad 4 0 0) rfl).2.1
    (by norm_num)
  ⟨rfl, h.1, h.2.trans (by norm_num)⟩

end FlowControl

/-! ## The session loop: theorems -/

namespace main

/-- C7: `Reset` yields the state `Bad`, 4, 0, 0 from every state; and a server tick that
starts with `connected` set and is told by the transport that it is not connected ends
with the flow controller in that state and `connected` cleared, whatever the state of
the flow controller was before. -/
theorem reset_restores_initial_state :
    (∀ fc : FlowControl, FlowControl.Reset fc = FlowControl.mk FlowControl.Mode.Bad 4 0 0) ∧
    (∀ (t : Polled) (fc : FlowControl),
        t.isConnectedAtDrop = false → t.isConnectedAtConnect = false →
        (tickHead Mode.Server t true fc).flowControl =
            FlowControl.mk FlowControl.Mode.Bad 4 0 0 ∧
        (tickHead Mode.Server t true fc).connected = false) := by
  refine ⟨fun fc => rfl, fun t fc h1 h2 => ?_⟩
  unfold tickHead
  simp [h1, h2, FlowControl.Reset]

/-- C7 at a server in `Good` mode with penalty 16 whose peer went away. -/
theorem reset_restores_initial_state_witness :
    (Polled.mk false false false false 0).isConnectedAtDrop = false ∧
    (Polled.mk false false false false 0).isConnectedAtConnect = false ∧
    (tickHead Mode.Server (Polled.mk false false false false 0) true
        (FlowControl.mk FlowControl.Mode.Good 16 7 7)).flowControl =
      FlowControl.mk FlowControl.Mode.Bad 4 0 0 ∧
    (tickHead Mode.Server (Polled.mk false false false false 0) true
        (FlowControl.mk FlowControl.Mode.Good 16 7 7)).connected = false :=
  ⟨rfl, rfl,
   reset_restores_initial_state.2 (Polled.mk false false false false 0)
     (FlowControl.mk FlowControl.Mode.Good 16 7 7) rfl rfl⟩

end main

/-! ## `readVectorToCharArray`: theorems -/

/-- Without wrap-around `std::size_t` subtraction is the difference. -/
theorem sizeSub_of_le (a b : Nat) (hb : b ≤ a) (ha : a < 2 ^ 64) : sizeSub a b = a - b := by
  unfold sizeSub
  omega

/-- For an offset inside the buffer `bytesToCopy` is the smaller of 256 and what is left. -/
theorem bytesToCopy_of_le (size startIndex : Nat) (hs : startIndex ≤ size)
    (hsize : size < 2 ^ 64) :
    readVectorToCharArray.bytesToCopy size startIndex = min 256 (size - startIndex) := by
  unfold readVectorToCharArray.bytesToCopy
  rw [sizeSub_of_le size startIndex hs hsize]
  split_ifs <;> omega

/-- The loop, while it stays inside both buffers, returns a buffer of the same length
whose bytes at `i ≤ j < i + n` are `data[startIndex + j]` and whose other bytes are those
of `output`. -/
theorem copy_spec (data : List Byte) (startIndex : Nat) (hsize : data.length < 2 ^ 64) :
    ∀ (n i : Nat) (output : List Byte),
      startIndex + i + n ≤ data.length → i + n ≤ output.length →
      ∃ out, readVectorToCharArray.copy data startIndex n i output = some out ∧
        out.length = output.length ∧
        ∀ j, out[j]? = if i ≤ j ∧ j < i + n then data[startIndex + j]? else output[j]? := by
  intro n
  induction n with
  | zero =>
    intro i output _ _
    refine ⟨output, rfl, rfl, fun j => ?_⟩
    have : ¬ (i ≤ j ∧ j < i + 0) := by omega
    rw [if_neg this]
  | succ n ih =>
    intro i output hd ho
    have hlt : startIndex + i < data.length := by omega
    have hmod : (startIndex + i) % 2 ^ 64 = startIndex + i := Nat.mod_eq_of_lt (by omega)
    have hio : i < output.length := by omega
    obtain ⟨out, hout, hlen, hget⟩ :=
      ih (i + 1) (output.set i data[startIndex + i]) (by omega)
        (by rw [List.length_set]; omega)
    refine ⟨out, ?_, ?_, fun j => ?_⟩
    · unfold readVectorToCharArray.copy
      rw [hmod, List.getElem?_eq_getElem hlt]
      simp only [hio, if_true]
      exact hout
    · rw [hlen, List.length_set]
    · rw [hget j, List.getElem?_set]
      by_cases hij : i = j
      · subst hij
        have h1 : ¬ (i + 1 ≤ i ∧ i < i + 1 + n) := by omega
        have h2 : i ≤ i ∧ i < i + (n + 1) := by omega
        rw [if_neg h1, if_pos rfl, if_pos hio, if_pos h2, List.getElem?_eq_getElem hlt]
      · rw [if_neg hij]
        by_cases hr : i + 1 ≤ j ∧ j < i + 1 + n
        · have h2 : i ≤ j ∧ j < i + (n + 1) := by omega
          rw [if_pos hr, if_pos h2]
        · have h2 : ¬ (i ≤ j ∧ j < i + (n + 1)) := by omega
          rw [if_neg hr, if_neg h2]

/-- The call, for an offset inside the source and an output buffer of 256 bytes: the
front of the output holds the bytes of the source from the offset on, the rest of the
output holds what it held before. -/
theorem readVectorToCharArray_spec (data output : List Byte) (startIndex : Nat)
    (hs : startIndex ≤ data.length) (hsize : data.length < 2 ^ 64)
    (ho : output.length = 256) :
    ∃ out, readVectorToCharArray data output startIndex = some out ∧
      out.length = 256 ∧
      (∀ j, j < min 256 (data.length - startIndex) → out[j]? = data[startIndex + j]?) ∧
      (∀ j, min 256 (data.length - startIndex) ≤ j → out[j]? = output[j]?) := by
  have hb := bytesToCopy_of_le data.length startIndex hs hsize
  obtain ⟨out, hout, hlen, hget⟩ :=
    copy_spec data startIndex hsize (min 256 (data.length - startIndex)) 0 output
      (by omega) (by omega)
  refine ⟨out, ?_, by rw [hlen, ho], fun j hj => ?_, fun j hj => ?_⟩
  · unfold readVectorToCharArray
    rw [hb]
    exact hout
  · rw [hget j, if_pos (by omega)]
  · rw [hget j, if_neg (by omega)]

/-- The front of the output after the call, as a slice of the source. -/
theorem readVectorToCharArray_take (data output : List Byte) (startIndex : Nat)
    (hs : startIndex ≤ data.length) (hsize : data.length < 2 ^ 64)
    (ho : output.length = 256) :
    ∃ out, readVectorToCharArray data output startIndex = some out ∧
      out.take (min 256 (data.length - startIndex)) = (data.drop startIndex).take 256 := by
  obtain ⟨out, hout, hlen, hfront, _⟩ :=
    readVectorToCharArray_spec data output startIndex hs hsize ho
  refine ⟨out, hout, List.ext_getElem? fun j => ?_⟩
  rw [List.getElem?_take, List.getElem?_take, List.getElem?_drop]
  by_cases hj : j < min 256 (data.length - startIndex)
  · rw [if_pos hj, if_pos (by omega), hfront j hj]
  · rw [if_neg hj]
    by_cases h256 : j < 256
    · rw [if_pos h256]
      exact (List.getElem?_eq_none (by omega)).symm
    · rw [if_neg h256]

/-- The read offset before call `k` of the advancing sender. -/
theorem chunkOffset_eq (data : List Byte) (hsize : data.length < 2 ^ 64) (k : Nat) :
    chunkOffset data k = min (256 * k) data.length := by
  induction k with
  | zero => simp [chunkOffset]
  | succ k ih =>
    unfold chunkOffset
    rw [ih, bytesToCopy_of_le data.length _ (by omega) hsize]
    omega

/-- The size of call `k` of the advancing sender. -/
theorem chunkSize_eq (data : List Byte) (hsize : data.length < 2 ^ 64) (k : Nat) :
    chunkSize data k = min 256 (data.length - 256 * k) := by
  unfold chunkSize
  rw [chunkOffset_eq data hsize k, bytesToCopy_of_le data.length _ (by omega) hsize]
  omega

/-- The bytes copied by call `k` of the advancing sender. -/
theorem chunkBytes_eq (data output : List Byte) (hsize : data.length < 2 ^ 64)
    (ho : output.length = 256) (k : Nat) (hk : 256 * k ≤ data.length) :
    chunkBytes data output k = some ((data.drop (256 * k)).take 256) := by
  have hoff : chunkOffset data k = 256 * k := by
    rw [chunkOffset_eq data hsize k]; omega
  obtain ⟨out, hout, htake⟩ :=
    readVectorToCharArray_take data output (256 * k) hk hsize ho
  unfold chunkBytes
  rw [hoff, hout, chunkSize_eq data hsize k]
  simp only [Option.map_some']
  rw [htake]

/-- Consecutive slices of 256 bytes concatenate to a prefix of the source. -/
theorem flatten_slices (data : List Byte) (m : Nat) :
    ((List.range m).map (fun k => (data.drop (256 * k)).take 256)).flatten =
      data.take (256 * m) := by
  induction m with
  | zero => simp
  | succ m ih =>
    rw [List.range_succ, List.map_append, List.flatten_append, ih]
    simp only [List.map_cons, List.map_nil, List.flatten_cons, List.flatten_nil,
      List.append_nil]
    rw [Nat.mul_succ, List.take_add]

/-- C9: for a source of length `L`, the advancing sender makes exactly `⌈L / 256⌉` calls
that copy a positive number of bytes, namely its first ones; each of them but possibly
the last copies 256 bytes; the sizes sum to `L`; the copied bytes concatenated in order
are the source; every later call copies 0 bytes. -/
theorem chunk_count_and_sizes (data : List Byte) (hsize : data.length < 2 ^ 64) :
    (∀ k, k < (data.length + 255) / 256 → 0 < chunkSize data k) ∧
    (∀ k, k + 1 < (data.length + 255) / 256 → chunkSize data k = 256) ∧
    (∀ k, (data.length + 255) / 256 ≤ k → chunkSize data k = 0) ∧
    (chunkSizes data ((data.length + 255) / 256)).sum = data.length ∧
    (∀ output : Nat → List Byte, (∀ k, (output k).length = 256) →
      ∃ chunks : List (List Byte),
        (List.range ((data.length + 255) / 256)).map
            (fun k => chunkBytes data (output k) k) = chunks.map some ∧
        chunks.flatten = data) := by
  have hflat : ((List.range ((data.length + 255) / 256)).map
      (fun k => (data.drop (256 * k)).take 256)).flatten = data := by
    rw [flatten_slices]
    exact List.take_of_length_le (by omega)
  refine ⟨fun k hk => ?_, fun k hk => ?_, fun k hk => ?_, ?_, fun output ho => ?_⟩
  · rw [chunkSize_eq data hsize k]; omega
  · rw [chunkSize_eq data hsize k]; omega
  · rw [chunkSize_eq data hsize k]; omega
  · have hmap : chunkSizes data ((data.length + 255) / 256) =
        ((List.range ((data.length + 255) / 256)).map
          (fun k => (data.drop (256 * k)).take 256)).map List.length := by
      unfold chunkSizes
      rw [List.map_map]
      refine List.map_congr_left fun k _ => ?_
      rw [chunkSize_eq data hsize k]
      simp only [Function.comp_apply, List.length_take, List.length_drop]
    rw [hmap, ← List.length_flatten, hflat]
  · refine ⟨(List.range ((data.length + 255) / 256)).map
      (fun k => (data.drop (256 * k)).take 256), ?_, hflat⟩
    rw [List.map_map]
    refine List.map_congr_left fun k hk => ?_
    have hk' : k < (data.length + 255) / 256 := List.mem_range.mp hk
    rw [chunkBytes_eq data (output k) hsize (ho k) k (by omega)]
    rfl

/-- C9 at a source of 600 bytes: the sizes are 256, 256, 88, then 0. -/
theorem chunk_count_and_sizes_witness :
    (List.replicate 600 (7 : Byte)).length < 2 ^ 64 ∧
    chunkSizes (List.replicate 600 (7 : Byte)) 5 = [256, 256, 88, 0, 0] ∧
    (chunkSizes (List.replicate 600 (7 : Byte))
      (((List.replicate 600 (7 : Byte)).length + 255) / 256)).sum =
        (List.replicate 600 (7 : Byte)).length :=
  have h : (List.replicate 600 (7 : Byte)).length < 2 ^ 64 := by
    rw [List.length_replicate]; norm_num
  have e : ∀ k, chunkSize (List.replicate 600 (7 : Byte)) k = min 256 (600 - 256 * k) :=
    fun k => by rw [chunkSize_eq _ h k, List.length_replicate]
  ⟨h, by rw [chunkSizes, show List.range 5 = [0, 1, 2, 3, 4] from rfl]
         simp only [List.map_cons, List.map_nil, e]
         decide,
   (chunk_count_and_sizes (List.replicate 600 7) h).2.2.2.1⟩

/-- C10 as stated fails: with source `[7, 8, 9]`, offset 1 and an output buffer filled
with 255, the call copies 2 bytes and the byte at index 2 is still 255, not 0. -/
theorem zero_padding_counterexample :
    1 ≤ ([7, 8, 9] : List Byte).length ∧
    (List.replicate 256 (255 : Byte)).length = 256 ∧
    ∃ out, readVectorToCharArray [7, 8, 9] (List.replicate 256 255) 1 = some out ∧
      out[2]? = some 255 ∧
      ¬ (∀ j, min 256 (([7, 8, 9] : List Byte).length - 1) ≤ j → j < 256 →
          out[j]? = some 0) := by
  have hlen : (List.replicate 256 (255 : Byte)).length = 256 := List.length_replicate _ _
  obtain ⟨out, hout, _, _, htail⟩ :=
    readVectorToCharArray_spec [7, 8, 9] (List.replicate 256 255) 1 (by decide)
      (by norm_num) hlen
  have h2 : out[2]? = some 255 := by
    rw [htail 2 (by decide), List.getElem?_replicate, if_pos (by norm_num)]
  refine ⟨by decide, hlen, out, hout, h2, fun hall => ?_⟩
  have h0 := hall 2 (by decide) (by norm_num)
  rw [h2] at h0
  exact absurd h0 (by decide)

/-- C10, amended: for a source shorter than `2 ^ 64`, an offset inside it and an output
buffer of 256 bytes, the call returns, the first `n = min 256 (len - offset)` bytes of
the output are `data[offset .. offset + n)`, and the bytes of the output at index `n` and
above are the ones it held before the call. -/
theorem chunk_contents_and_tail (data output : List Byte) (offset : Nat)
    (hs : offset ≤ data.length) (hsize : data.length < 2 ^ 64)
    (ho : output.length = 256) :
    ∃ out, readVectorToCharArray data output offset = some out ∧
      out.length = 256 ∧
      out.take (min 256 (data.length - offset)) =
        (data.drop offset).take (min 256 (data.length - offset)) ∧
      out.drop (min 256 (data.length - offset)) =
        output.drop (min 256 (data.length - offset)) := by
  obtain ⟨out, hout, hlen, hfront, htail⟩ :=
    readVectorToCharArray_spec data output offset hs hsize ho
  refine ⟨out, hout, hlen, List.ext_getElem? fun j => ?_, List.ext_getElem? fun j => ?_⟩
  · rw [List.getElem?_take, List.getElem?_take, List.getElem?_drop]
    by_cases hj : j < min 256 (data.length - offset)
    · rw [if_pos hj, if_pos hj, hfront j hj]
    · rw [if_neg hj, if_neg hj]
  · rw [List.getElem?_drop, List.getElem?_drop]
    exact htail _ (Nat.le_add_right _ _)

/-- C10, amended, at source `[7, 8, 9]`, offset 1 and an output buffer filled with 255:
the output starts with 8, 9 and goes on with 255. -/
theorem chunk_contents_and_tail_witness :
    1 ≤ ([7, 8, 9] : List Byte).length ∧
    ([7, 8, 9] : List Byte).length < 2 ^ 64 ∧
    (List.replicate 256 (255 : Byte)).length = 256 ∧
    ∃ out, readVectorToCharArray [7, 8, 9] (List.replicate 256 255) 1 = some out ∧
      out.length = 256 ∧
      out.take (min 256 (([7, 8, 9] : List Byte).length - 1)) =
        (([7, 8, 9] : List Byte).drop 1).take (min 256 (([7, 8, 9] : List Byte).length - 1)) ∧
      out.drop (min 256 (([7, 8, 9] : List Byte).length - 1)) =
        (List.replicate 256 (255 : Byte)).drop
          (min 256 (([7, 8, 9] : List Byte).length - 1)) :=
  ⟨by decide, by norm_num, List.length_replicate _ _,
   chunk_contents_and_tail [7, 8, 9] (List.replicate 256 255) 1 (by decide) (by norm_num)
     (List.length_replicate _ _)⟩

/-- C11, evaluated: at an offset equal to the length the call copies 0 bytes and leaves
the output as it was; at offset 1 past an empty source the unsigned difference wraps to
`2 ^ 64 - 1`, `bytesToCopy` is 256 and the first iteration reads outside the source. -/
theorem idle_chunk_past_end_evaluated :
    (∀ data output : List Byte,
        readVectorToCharArray.bytesToCopy data.length data.length = 0 ∧
        readVectorToCharArray data output data.length = some output) ∧
    sizeSub ([] : List Byte).length 1 = 2 ^ 64 - 1 ∧
    readVectorToCharArray.bytesToCopy ([] : List Byte).length 1 = 256 ∧
    readVectorToCharArray [] (List.replicate 256 0) 1 = none := by
  have h0 : ∀ n : Nat, readVectorToCharArray.bytesToCopy n n = 0 := by
    intro n
    have hs : sizeSub n n = 0 := by unfold sizeSub; omega
    unfold readVectorToCharArray.bytesToCopy
    rw [hs]
    rfl
  have h1 : sizeSub ([] : List Byte).length 1 = 2 ^ 64 - 1 := by
    unfold sizeSub
    simp
  have h2 : readVectorToCharArray.bytesToCopy ([] : List Byte).length 1 = 256 := by
    unfold readVectorToCharArray.bytesToCopy
    rw [h1]
    norm_num
  refine ⟨fun data output => ⟨h0 _, ?_⟩, h1, h2, ?_⟩
  · unfold readVectorToCharArray
    rw [h0]
    rfl
  · unfold readVectorToCharArray
    rw [h2]
    rfl

/-! ## The session loop: exit, pacing, reports -/

namespace main

/-- A tick leaves the loop exactly when `connected` is clear after lines 239 to 250 and
the transport reports a failed connect. -/
theorem tickHead_exited_iff (mode : Mode) (t : Polled) (connected : Bool)
    (flowControl : FlowControl) :
    (tickHead mode t connected flowControl).exited = true ↔
      (tickHead mode t connected flowControl).connected = false ∧ t.connectFailed = true := by
  simp only [tickHead, Bool.and_eq_true, Bool.not_eq_true']

/-- A client whose `connected` is set keeps it set and stays in the loop. -/
theorem tickHead_client_connected (t : Polled) (flowControl : FlowControl) :
    (tickHead Mode.Client t true flowControl).connected = true ∧
    (tickHead Mode.Client t true flowControl).exited = false := by
  unfold tickHead
  simp

/-- A client that starts a run of ticks with `connected` set never leaves the loop. -/
theorem runHeads_client_connected (ts : List Polled) :
    ∀ flowControl : FlowControl,
      ∀ h ∈ runHeads Mode.Client ts true flowControl, h.exited = false := by
  induction ts with
  | nil => intro flowControl h hh; simp [runHeads] at hh
  | cons t ts ih =>
    intro flowControl h hh
    obtain ⟨hc, he⟩ := tickHead_client_connected t flowControl
    unfold runHeads at hh
    simp only [he, Bool.false_eq_true, if_false, List.mem_cons] at hh
    rcases hh with hh | hh
    · rw [hh]; exact he
    · rw [hc] at hh
      exact ih _ h hh

/-- A client run that starts with `connected` clear and leaves the loop never had
`connected` set. -/
theorem runHeads_client_exit (ts : List Polled) :
    ∀ flowControl : FlowControl,
      (∃ h ∈ runHeads Mode.Client ts false flowControl, h.exited = true) →
      ∀ h ∈ runHeads Mode.Client ts false flowControl, h.connected = false := by
  induction ts with
  | nil => intro flowControl _ h hh; simp [runHeads] at hh
  | cons t ts ih =>
    intro flowControl hex h hh
    unfold runHeads at hex hh
    by_cases he : (tickHead Mode.Client t false flowControl).exited = true
    · simp only [he, if_true, List.mem_singleton] at hh
      rw [hh]
      exact ((tickHead_exited_iff _ _ _ _).mp he).1
    · have he' : (tickHead Mode.Client t false flowControl).exited = false := by
        simpa using he
      simp only [he', Bool.false_eq_true, if_false, List.mem_cons] at hex hh
      cases hc : (tickHead Mode.Client t false flowControl).connected with
      | false =>
        rw [hc] at hex hh
        rcases hh with hh | hh
        · rw [hh]; exact hc
        · refine ih _ ?_ h hh
          obtain ⟨x, hx, hxe⟩ := hex
          rcases hx with hx | hx
          · rw [hx, he'] at hxe; exact absurd hxe (by decide)
          · exact ⟨x, hx, hxe⟩
      | true =>
        rw [hc] at hex
        obtain ⟨x, hx, hxe⟩ := hex
        rcases hx with hx | hx
        · rw [hx, he'] at hxe; exact absurd hxe (by decide)
        · rw [runHeads_client_connected ts _ x hx] at hxe
          exact absurd hxe (by decide)

/-- C12 as stated fails: a server whose `connected` is clear, told by the transport that
it is not connected and that the connect failed, leaves the loop. -/
theorem server_exit_counterexample :
    (tickHead Mode.Server (Polled.mk false false false true 0) false
        (FlowControl.mk FlowControl.Mode.Bad 4 0 0)).exited = true ∧
    ¬ ((tickHead Mode.Server (Polled.mk false false false true 0) false
        (FlowControl.mk FlowControl.Mode.Bad 4 0 0)).exited = true → Mode.Server = Mode.Client) := by
  have h : (tickHead Mode.Server (Polled.mk false false false true 0) false
      (FlowControl.mk FlowControl.Mode.Bad 4 0 0)).exited = true := by
    unfold tickHead
    simp
  exact ⟨h, fun hc => Mode.noConfusion (hc h)⟩

/-- C12, amended: a tick leaves the loop exactly when `connected` is clear at the exit
test and the transport reports a failed connect; a client run from the start of the
session that leaves the loop never had `connected` set; a server tick during which the
transport does not report a failed connect stays in the loop. -/
theorem exit_only_unconnected_and_failed :
    (∀ (mode : Mode) (t : Polled) (connected : Bool) (flowControl : FlowControl),
        (tickHead mode t connected flowControl).exited = true ↔
          (tickHead mode t connected flowControl).connected = false ∧
            t.connectFailed = true) ∧
    (∀ (ts : List Polled) (flowControl : FlowControl),
        (∃ h ∈ runHeads Mode.Client ts false flowControl, h.exited = true) →
        ∀ h ∈ runHeads Mode.Client ts false flowControl, h.connected = false) ∧
    (∀ (t : Polled) (connected : Bool) (flowControl : FlowControl),
        t.connectFailed = false →
        (tickHead Mode.Server t connected flowControl).exited = false) := by
  refine ⟨tickHead_exited_iff, runHeads_client_exit, fun t connected flowControl hf => ?_⟩
  unfold tickHead
  simp [hf]

/-- C12, amended, at a client that fails to connect on its third tick and at a server
tick without a failed connect. -/
theorem exit_only_unconnected_and_failed_witness :
    (∃ h ∈ runHeads Mode.Client
        [Polled.mk false false false false 0, Polled.mk false false false false 0,
         Polled.mk false false false true 0] false (FlowControl.mk FlowControl.Mode.Bad 4 0 0),
      h.exited = true) ∧
    (∀ h ∈ runHeads Mode.Client
        [Polled.mk false false false false 0, Polled.mk false false false false 0,
         Polled.mk false false false true 0] false (FlowControl.mk FlowControl.Mode.Bad 4 0 0),
      h.connected = false) ∧
    (Polled.mk false false false false 0).connectFailed = false ∧
    (tickHead Mode.Server (Polled.mk false false false false 0) true
        (FlowControl.mk FlowControl.Mode.Good 4 0 0)).exited = false := by
  have hex : ∃ h ∈ runHeads Mode.Client
      [Polled.mk false false false false 0, Polled.mk false false false false 0,
       Polled.mk false false false true 0] false (FlowControl.mk FlowControl.Mode.Bad 4 0 0),
      h.exited = true := by
    simp [runHeads, tickHead, FlowControl.GetSendRate]
  exact ⟨hex, exit_only_unconnected_and_failed.2.1 _ _ hex, rfl,
    exit_only_unconnected_and_failed.2.2 _ _ _ rfl⟩

/-- C13: for all counters the printed loss percentage is computed without a division by
zero and is `lost / sent * 100` when `sent > 0` and 0 when `sent = 0`. -/
theorem lossPercentage_value (sent_packets lost_packets : Nat) :
    lossPercentage sent_packets lost_packets =
      some (if 0 < sent_packets then (lost_packets : ℚ) / (sent_packets : ℚ) * 100 else 0) := by
  unfold lossPercentage checkedDiv
  by_cases h : 0 < sent_packets
  · have hq : (sent_packets : ℚ) > 0 := by exact_mod_cast h
    have hne : (sent_packets : ℚ) ≠ 0 := ne_of_gt hq
    rw [if_pos hq, if_neg hne, if_pos h]
    rfl
  · have hq : ¬ (sent_packets : ℚ) > 0 := by
      intro hc
      exact h (by exact_mod_cast hc)
    rw [if_neg hq, if_neg h]

/-- With `startingIndex = 0` the body of the send loop hands 256 zero bytes to the
transport, in either role and whatever the source and the array held. -/
theorem sendBody_zero (mode : Mode) (binaryContent garbage : List Byte)
    (hsize : binaryContent.length < 2 ^ 64) (hg : garbage.length = 256) :
    sendBody mode binaryContent 0 garbage = some (List.replicate 256 0) := by
  have hm : ∀ packet : List Byte, packet.length = 256 →
      memset packet 0 PacketSize = List.replicate 256 0 := by
    intro packet hp
    unfold memset PacketSize
    rw [List.drop_of_length_le (le_of_eq hp), List.append_nil]
  unfold sendBody
  cases mode with
  | Client =>
    obtain ⟨out, hout, hlen, _⟩ :=
      readVectorToCharArray_spec binaryContent garbage 0 (Nat.zero_le _) hsize hg
    simp only [if_true, hout, Option.map_some']
    rw [hm out hlen]
  | Server =>
    simp only [reduceCtorEq, if_false, Option.map_some']
    rw [hm garbage hg]

/-- The send loop, told how many intervals the accumulator strictly exceeds: with at
least that much fuel it sends that many zero packets and takes that many intervals off
the accumulator. -/
theorem sendLoop_spec (mode : Mode) (binaryContent : List Byte) (garbage : Nat → List Byte)
    (hsize : binaryContent.length < 2 ^ 64) (hg : ∀ k, (garbage k).length = 256)
    (sendRate : ℚ) :
    ∀ (k fuel : Nat) (acc : ℚ) (sent : List (List Byte)), k ≤ fuel →
      (∀ j : Nat, j < k → acc - (j : ℚ) * (1 / sendRate) > 1 / sendRate) →
      ¬ (acc - (k : ℚ) * (1 / sendRate) > 1 / sendRate) →
      sendLoop mode binaryContent 0 sendRate garbage fuel acc sent =
        some (acc - (k : ℚ) * (1 / sendRate),
              sent ++ List.replicate k (List.replicate 256 0)) := by
  intro k
  induction k with
  | zero =>
    intro fuel acc sent _ _ hstop
    have hstop' : ¬ (acc > 1 / sendRate) := by simpa using hstop
    have hres : some (acc, sent) = some (acc - ((0 : Nat) : ℚ) * (1 / sendRate),
        sent ++ List.replicate 0 (List.replicate 256 (0 : Byte))) := by
      simp only [Nat.cast_zero, zero_mul, sub_zero, List.replicate_zero, List.append_nil]
    cases fuel with
    | zero => rw [sendLoop, if_neg hstop', hres]
    | succ fuel => rw [sendLoop, if_neg hstop', hres]
  | succ k ih =>
    intro fuel acc sent hfuel hgo hstop
    obtain ⟨fuel', rfl⟩ : ∃ fuel', fuel = fuel' + 1 := ⟨fuel - 1, by omega⟩
    have h0 : acc > 1 / sendRate := by simpa using hgo 0 (Nat.succ_pos k)
    have hrec := ih fuel' (acc - 1 / sendRate) (sent ++ [List.replicate 256 0]) (by omega)
      (fun j hj => by
        have := hgo (j + 1) (by omega)
        push_cast at this
        linarith)
      (by
        push_cast at hstop
        intro hc
        exact hstop (by linarith))
    unfold sendLoop
    rw [if_pos h0, sendBody_zero mode binaryContent _ hsize (hg _)]
    simp only []
    rw [hrec]
    congr 1
    refine Prod.ext ?_ ?_
    · show acc - 1 / sendRate - (k : ℚ) * (1 / sendRate) =
        acc - ((k + 1 : Nat) : ℚ) * (1 / sendRate)
      push_cast
      ring
    · show sent ++ [List.replicate 256 0] ++ List.replicate k (List.replicate 256 0) =
        sent ++ List.replicate (k + 1) (List.replicate 256 0)
      rw [List.append_assoc, List.replicate_succ]
      rfl

/-- The send step from `startingIndex = 0`, told how many intervals the accumulator
strictly exceeds after `DeltaTime` is added. -/
theorem sendStep_count (mode : Mode) (binaryContent : List Byte) (garbage : Nat → List Byte)
    (hsize : binaryContent.length < 2 ^ 64) (hg : ∀ k, (garbage k).length = 256)
    (sendRate b : ℚ) (k fuel : Nat) (hfuel : k ≤ fuel)
    (hgo : ∀ j : Nat, j < k → b + DeltaTime - (j : ℚ) * (1 / sendRate) > 1 / sendRate)
    (hstop : ¬ (b + DeltaTime - (k : ℚ) * (1 / sendRate) > 1 / sendRate)) :
    sendStep mode binaryContent garbage fuel sendRate b 0 =
      some { sendRate := sendRate
             sendAccumulator := b + DeltaTime - (k : ℚ) * (1 / sendRate)
             startingIndex := 0
             sent := List.replicate k (List.replicate 256 0) } := by
  unfold sendStep
  rw [sendLoop_spec mode binaryContent garbage hsize hg sendRate k fuel _ [] hfuel hgo hstop]
  simp only [Option.map_some', List.nil_append]

/-- For a positive rate and a positive accumulator `x / sendRate`, the number of
intervals the loop takes off is `⌈x⌉₊ - 1`. -/
theorem intervals_exceeded (sendRate acc : ℚ) (hr : 0 < sendRate) (hacc : 0 < acc) :
    (∀ j : Nat, j < ⌈acc * sendRate⌉₊ - 1 → acc - (j : ℚ) * (1 / sendRate) > 1 / sendRate) ∧
    ¬ (acc - ((⌈acc * sendRate⌉₊ - 1 : Nat) : ℚ) * (1 / sendRate) > 1 / sendRate) ∧
    0 < acc - ((⌈acc * sendRate⌉₊ - 1 : Nat) : ℚ) * (1 / sendRate) ∧
    ((⌈acc * sendRate⌉₊ - 1 : Nat) : ℚ) < acc * sendRate := by
  have hx : 0 < acc * sendRate := mul_pos hacc hr
  have hpos : 0 < ⌈acc * sendRate⌉₊ := Nat.ceil_pos.mpr hx
  have hlt : (⌈acc * sendRate⌉₊ : ℚ) < acc * sendRate + 1 := Nat.ceil_lt_add_one (le_of_lt hx)
  have hle : acc * sendRate ≤ (⌈acc * sendRate⌉₊ : ℚ) := Nat.le_ceil _
  have hcast : ((⌈acc * sendRate⌉₊ - 1 : Nat) : ℚ) = (⌈acc * sendRate⌉₊ : ℚ) - 1 := by
    rw [Nat.cast_sub hpos]; simp
  have hi : 0 < 1 / sendRate := one_div_pos.mpr hr
  have hri : acc = acc * sendRate * (1 / sendRate) := by
    field_simp
  refine ⟨fun j hj => ?_, ?_, ?_, ?_⟩
  · have hj' : ((j + 2 : Nat) : ℚ) ≤ (⌈acc * sendRate⌉₊ : ℚ) := by
      exact_mod_cast (by omega : j + 2 ≤ ⌈acc * sendRate⌉₊)
    push_cast at hj'
    have hgap : 0 < acc * sendRate - ((j : ℚ) + 1) := by linarith
    have := mul_pos hgap hi
    rw [gt_iff_lt]
    calc 1 / sendRate
        < 1 / sendRate + (acc * sendRate - ((j : ℚ) + 1)) * (1 / sendRate) := by linarith
      _ = acc * sendRate * (1 / sendRate) - (j : ℚ) * (1 / sendRate) := by ring
      _ = acc - (j : ℚ) * (1 / sendRate) := by rw [← hri]
  · rw [hcast, not_lt]
    have hgap : 0 ≤ (⌈acc * sendRate⌉₊ : ℚ) - acc * sendRate := by linarith
    have := mul_nonneg hgap (le_of_lt hi)
    calc acc - ((⌈acc * sendRate⌉₊ : ℚ) - 1) * (1 / sendRate)
        = acc * sendRate * (1 / sendRate) - ((⌈acc * sendRate⌉₊ : ℚ) - 1) * (1 / sendRate) := by
          rw [← hri]
      _ = 1 / sendRate - ((⌈acc * sendRate⌉₊ : ℚ) - acc * sendRate) * (1 / sendRate) := by ring
      _ ≤ 1 / sendRate := by linarith
  · rw [hcast]
    have hgap : 0 < acc * sendRate - ((⌈acc * sendRate⌉₊ : ℚ) - 1) := by linarith
    have := mul_pos hgap hi
    calc (0 : ℚ) < (acc * sendRate - ((⌈acc * sendRate⌉₊ : ℚ) - 1)) * (1 / sendRate) := this
      _ = acc * sendRate * (1 / sendRate) - ((⌈acc * sendRate⌉₊ : ℚ) - 1) * (1 / sendRate) := by
          ring
      _ = acc - ((⌈acc * sendRate⌉₊ : ℚ) - 1) * (1 / sendRate) := by rw [← hri]
  · rw [hcast]; linarith

/-- C14 as stated fails: with budget 0 and rate 30 the accumulator after the addition is
exactly one interval, the test `>` fails, no packet is sent and the budget stays at one
whole interval, where `⌊(0 + 1/30) * 30⌋ = 1` packet and a budget of 0 are claimed. -/
theorem send_step_floor_counterexample :
    ⌊((0 : ℚ) + 1 / 30) * 30⌋₊ = 1 ∧
    (∀ fuel : Nat,
      sendStep Mode.Server [] (fun _ => List.replicate 256 0) fuel 30 0 0 =
        some { sendRate := 30, sendAccumulator := 1 / 30, startingIndex := 0, sent := [] }) ∧
    ¬ ((1 : ℚ) / 30 < 1 / 30) := by
  refine ⟨by norm_num, fun fuel => ?_, by norm_num⟩
  rw [sendStep_count Mode.Server [] (fun _ => List.replicate 256 0) (by norm_num)
    (fun _ => List.length_replicate _ _) 30 0 0 fuel (Nat.zero_le _)
    (fun j hj => absurd hj (Nat.not_lt_zero j)) (by norm_num [DeltaTime])]
  simp only [List.replicate_zero]
  norm_num [DeltaTime]

/-- C14, amended: for a budget `b ≥ 0` and a rate of 10 or 30, with
`k = ⌈(b + 1/30) * r⌉ - 1` the send step run with at least `k` iterations allowed
returns, sends `k` packets and leaves the budget `b + 1/30 - k / r`, which is above 0 and
at most one interval `1 / r`; `k` is `⌊(b + 1/30) * r⌋` unless `(b + 1/30) * r` is a
whole number. -/
theorem send_step_intervals (mode : Mode) (binaryContent : List Byte)
    (garbage : Nat → List Byte) (hsize : binaryContent.length < 2 ^ 64)
    (hg : ∀ k, (garbage k).length = 256) (b r : ℚ) (hb : 0 ≤ b) (hr : r = 10 ∨ r = 30)
    (fuel : Nat) (hfuel : ⌈(b + 1 / 30) * r⌉₊ - 1 ≤ fuel) :
    sendStep mode binaryContent garbage fuel r b 0 =
      some { sendRate := r
             sendAccumulator := b + 1 / 30 - ((⌈(b + 1 / 30) * r⌉₊ - 1 : Nat) : ℚ) / r
             startingIndex := 0
             sent := List.replicate (⌈(b + 1 / 30) * r⌉₊ - 1) (List.replicate 256 0) } ∧
    0 < b + 1 / 30 - ((⌈(b + 1 / 30) * r⌉₊ - 1 : Nat) : ℚ) / r ∧
    b + 1 / 30 - ((⌈(b + 1 / 30) * r⌉₊ - 1 : Nat) : ℚ) / r ≤ 1 / r ∧
    ((⌊(b + 1 / 30) * r⌋₊ : ℚ) ≠ (b + 1 / 30) * r →
      ⌈(b + 1 / 30) * r⌉₊ - 1 = ⌊(b + 1 / 30) * r⌋₊) := by
  have hrpos : 0 < r := by rcases hr with h | h <;> rw [h] <;> norm_num
  have hacc : 0 < b + 1 / 30 := by linarith
  obtain ⟨hgo, hstop, hpos, _⟩ := intervals_exceeded r (b + 1 / 30) hrpos hacc
  have hdiv : ((⌈(b + 1 / 30) * r⌉₊ - 1 : Nat) : ℚ) / r =
      ((⌈(b + 1 / 30) * r⌉₊ - 1 : Nat) : ℚ) * (1 / r) := by ring
  have hstep := sendStep_count mode binaryContent garbage hsize hg r b
    (⌈(b + 1 / 30) * r⌉₊ - 1) fuel hfuel
    (by simpa [DeltaTime] using hgo) (by simpa [DeltaTime] using hstop)
  refine ⟨?_, ?_, ?_, fun hne => ?_⟩
  · rw [hstep, hdiv]
    simp only [DeltaTime]
  · rw [hdiv]; exact hpos
  · rw [hdiv]; exact not_lt.mp hstop
  · have hx : 0 ≤ (b + 1 / 30) * r := le_of_lt (mul_pos hacc hrpos)
    have h1 : ⌈(b + 1 / 30) * r⌉₊ ≤ ⌊(b + 1 / 30) * r⌋₊ + 1 := Nat.ceil_le_floor_add_one _
    have h2 : (⌊(b + 1 / 30) * r⌋₊ : ℚ) ≤ (b + 1 / 30) * r := Nat.floor_le hx
    have h3 : (b + 1 / 30) * r ≤ (⌈(b + 1 / 30) * r⌉₊ : ℚ) := Nat.le_ceil _
    have h4 : ⌊(b + 1 / 30) * r⌋₊ < ⌈(b + 1 / 30) * r⌉₊ := by
      have : (⌊(b + 1 / 30) * r⌋₊ : ℚ) < (⌈(b + 1 / 30) * r⌉₊ : ℚ) :=
        lt_of_lt_of_le (lt_of_le_of_ne h2 hne) h3
      exact_mod_cast this
    omega

/-- C14, amended, at a client with budget 1/10 and rate 30. -/
theorem send_step_intervals_witness :
    ([1, 2, 3] : List Byte).length < 2 ^ 64 ∧
    (∀ k : Nat, ((fun _ => List.replicate 256 9 : Nat → List Byte) k).length = 256) ∧
    (0 : ℚ) ≤ 1 / 10 ∧ ((30 : ℚ) = 10 ∨ (30 : ℚ) = 30) ∧
    ⌈((1 : ℚ) / 10 + 1 / 30) * 30⌉₊ - 1 ≤ 3 ∧
    sendStep Mode.Client [1, 2, 3] (fun _ => List.replicate 256 9) 3 30 (1 / 10) 0 =
      some { sendRate := 30
             sendAccumulator :=
               1 / 10 + 1 / 30 - ((⌈((1 : ℚ) / 10 + 1 / 30) * 30⌉₊ - 1 : Nat) : ℚ) / 30
             startingIndex := 0
             sent := List.replicate (⌈((1 : ℚ) / 10 + 1 / 30) * 30⌉₊ - 1)
               (List.replicate 256 0) } :=
  have hc : ⌈((1 : ℚ) / 10 + 1 / 30) * 30⌉₊ - 1 ≤ 3 := by
    have : ((1 : ℚ) / 10 + 1 / 30) * 30 = ((4 : Nat) : ℚ) := by norm_num
    rw [this, Nat.ceil_natCast]
  ⟨by decide, fun _ => List.length_replicate _ _, by norm_num, Or.inr rfl, hc,
   (send_step_intervals Mode.Client [1, 2, 3] (fun _ => List.replicate 256 9) (by decide)
      (fun _ => List.length_replicate _ _) (1 / 10) 30 (by norm_num) (Or.inr rfl) 3 hc).1⟩

/-- One send step at rate 10 or 30 from a budget in `[0, 1/10]` and `startingIndex = 0`,
with three iterations allowed: it returns, the budget stays in `(0, 1/10]`, at most 3
packets are sent, at most 1 at rate 10, every packet is 256 zero bytes and
`startingIndex` is still 0. -/
theorem sendStep_bounded (mode : Mode) (binaryContent : List Byte)
    (garbage : Nat → List Byte) (hsize : binaryContent.length < 2 ^ 64)
    (hg : ∀ k, (garbage k).length = 256) (b r : ℚ) (hb0 : 0 ≤ b) (hb1 : b ≤ 1 / 10)
    (hr : r = 10 ∨ r = 30) (fuel : Nat) (hfuel : 3 ≤ fuel) :
    ∃ t, sendStep mode binaryContent garbage fuel r b 0 = some t ∧
      t.sendRate = r ∧ 0 < t.sendAccumulator ∧ t.sendAccumulator ≤ 1 / 10 ∧
      t.startingIndex = 0 ∧ t.sent.length ≤ 3 ∧ (r = 10 → t.sent.length ≤ 1) ∧
      ∀ p ∈ t.sent, p = List.replicate 256 0 := by
  have hrpos : 0 < r := by rcases hr with h | h <;> rw [h] <;> norm_num
  have hacc : 0 < b + DeltaTime := by unfold DeltaTime; linarith
  obtain ⟨hgo, hstop, hpos, hk⟩ := intervals_exceeded r (b + DeltaTime) hrpos hacc
  have hk3 : ⌈(b + DeltaTime) * r⌉₊ - 1 ≤ 3 := by
    have : ((⌈(b + DeltaTime) * r⌉₊ - 1 : Nat) : ℚ) < ((4 : Nat) : ℚ) := by
      refine lt_of_lt_of_le hk ?_
      unfold DeltaTime
      rcases hr with h | h <;> (rw [h]; push_cast; linarith)
    have := Nat.cast_lt.mp this
    omega
  have hk1 : r = 10 → ⌈(b + DeltaTime) * r⌉₊ - 1 ≤ 1 := by
    intro h
    have : ((⌈(b + DeltaTime) * r⌉₊ - 1 : Nat) : ℚ) < ((2 : Nat) : ℚ) := by
      refine lt_of_lt_of_le hk ?_
      unfold DeltaTime
      rw [h]; push_cast; linarith
    have := Nat.cast_lt.mp this
    omega
  refine ⟨_, sendStep_count mode binaryContent garbage hsize hg r b
    (⌈(b + DeltaTime) * r⌉₊ - 1) fuel (le_trans hk3 hfuel) hgo hstop, rfl, hpos, ?_, rfl,
    ?_, ?_, ?_⟩
  · have h1 : (1 : ℚ) / r ≤ 1 / 10 := by
      rcases hr with h | h
      · rw [h]
      · rw [h]; norm_num
    exact le_trans (not_lt.mp hstop) h1
  · show (List.replicate _ _).length ≤ 3
    rw [List.length_replicate]; exact hk3
  · intro h
    show (List.replicate _ _).length ≤ 1
    rw [List.length_replicate]; exact hk1 h
  · intro p hp
    exact List.eq_of_mem_replicate hp

/-- Successive send steps at rates 10 or 30 from a budget in `[0, 1/10]` and
`startingIndex = 0`, with three iterations allowed per tick: they return, one record per
tick in the order of the rates, and every record has the properties of
`sendStep_bounded`. -/
theorem sendTicks_bounded (mode : Mode) (binaryContent : List Byte)
    (garbage : Nat → List Byte) (hsize : binaryContent.length < 2 ^ 64)
    (hg : ∀ k, (garbage k).length = 256) (fuel : Nat) (hfuel : 3 ≤ fuel) (rates : List ℚ) :
    ∀ b : ℚ, 0 ≤ b → b ≤ 1 / 10 → (∀ r ∈ rates, r = 10 ∨ r = 30) →
    ∃ ts, sendTicks mode binaryContent garbage fuel rates b 0 = some ts ∧
      ts.map (fun t => t.sendRate) = rates ∧
      ∀ t ∈ ts, 0 < t.sendAccumulator ∧ t.sendAccumulator ≤ 1 / 10 ∧
        t.startingIndex = 0 ∧ t.sent.length ≤ 3 ∧ (t.sendRate = 10 → t.sent.length ≤ 1) ∧
        ∀ p ∈ t.sent, p = List.replicate 256 0 := by
  induction rates with
  | nil =>
    intro b _ _ _
    exact ⟨[], rfl, rfl, fun t ht => absurd ht (List.not_mem_nil t)⟩
  | cons r rates ih =>
    intro b hb0 hb1 hr
    obtain ⟨t, ht, htr, hpos, hle, hidx, h3, h1, hz⟩ :=
      sendStep_bounded mode binaryContent garbage hsize hg b r hb0 hb1
        (hr r (List.mem_cons_self _ _)) fuel hfuel
    obtain ⟨ts, hts, hrates, hall⟩ :=
      ih t.sendAccumulator (le_of_lt hpos) hle (fun x hx => hr x (List.mem_cons_of_mem _ hx))
    refine ⟨t :: ts, ?_, ?_, ?_⟩
    · unfold sendTicks
      rw [ht]
      simp only []
      rw [hidx, hts]
      rfl
    · rw [List.map_cons, htr, hrates]
    · intro x hx
      rcases List.mem_cons.mp hx with hx | hx
      · rw [hx]
        exact ⟨hpos, hle, hidx, h3, fun h => h1 (htr ▸ h), hz⟩
      · exact hall x hx

/-- C16: in either role and for every source, the body of the send loop hands 256 zero
bytes to the transport whatever the array held before; over any run of ticks at rates 10
or 30 from the start of the session every packet sent is 256 zero bytes and
`startingIndex` is 0 after every tick. -/
theorem sent_packets_zero_and_cursor_fixed (mode : Mode) (binaryContent : List Byte)
    (garbage : Nat → List Byte) (hsize : binaryContent.length < 2 ^ 64)
    (hg : ∀ k, (garbage k).length = 256) (fuel : Nat) (hfuel : 3 ≤ fuel) (rates : List ℚ)
    (hr : ∀ r ∈ rates, r = 10 ∨ r = 30) :
    (∀ k, sendBody mode binaryContent 0 (garbage k) = some (List.replicate 256 0)) ∧
    ∃ ts, sendTicks mode binaryContent garbage fuel rates 0 0 = some ts ∧
      ts.length = rates.length ∧
      ∀ t ∈ ts, (∀ p ∈ t.sent, p = List.replicate 256 0) ∧ t.startingIndex = 0 := by
  obtain ⟨ts, hts, hrates, hall⟩ :=
    sendTicks_bounded mode binaryContent garbage hsize hg fuel hfuel rates 0 (le_refl _)
      (by norm_num) hr
  refine ⟨fun k => sendBody_zero mode binaryContent _ hsize (hg k), ts, hts, ?_, ?_⟩
  · rw [← hrates, List.length_map]
  · intro t ht
    obtain ⟨_, _, hidx, _, _, hz⟩ := hall t ht
    exact ⟨hz, hidx⟩

/-- C16 at a client with a three-byte source over six ticks. -/
theorem sent_packets_zero_and_cursor_fixed_witness :
    ([1, 2, 3] : List Byte).length < 2 ^ 64 ∧
    (∀ k : Nat, ((fun _ => List.replicate 256 9 : Nat → List Byte) k).length = 256) ∧
    3 ≤ 3 ∧ (∀ r ∈ ([10, 10, 10, 30, 30, 10] : List ℚ), r = 10 ∨ r = 30) ∧
    ∃ ts, sendTicks Mode.Client [1, 2, 3] (fun _ => List.replicate 256 9) 3
        [10, 10, 10, 30, 30, 10] 0 0 = some ts ∧
      ts.length = ([10, 10, 10, 30, 30, 10] : List ℚ).length ∧
      ∀ t ∈ ts, (∀ p ∈ t.sent, p = List.replicate 256 0) ∧ t.startingIndex = 0 :=
  have hr : ∀ r ∈ ([10, 10, 10, 30, 30, 10] : List ℚ), r = 10 ∨ r = 30 := by
    intro r h
    simp only [List.mem_cons, List.mem_singleton, List.not_mem_nil, or_false] at h
    rcases h with h | h | h | h | h | h <;> simp [h]
  ⟨by decide, fun _ => List.length_replicate _ _, le_refl _, hr,
   (sent_packets_zero_and_cursor_fixed Mode.Client [1, 2, 3]
      (fun _ => List.replicate 256 9) (by decide) (fun _ => List.length_replicate _ _) 3
      (le_refl _) [10, 10, 10, 30, 30, 10] hr).2⟩

/-- C19: with `DeltaTime = 1/30` and the budget starting at 0, for every sequence of
rates drawn from 10 and 30 the send steps return, the budget after every tick lies in
`[0, 1/10]`, every tick sends at most 3 packets and every tick at rate 10 sends at most
1. -/
theorem bounded_burst_per_tick (mode : Mode) (binaryContent : List Byte)
    (garbage : Nat → List Byte) (hsize : binaryContent.length < 2 ^ 64)
    (hg : ∀ k, (garbage k).length = 256) (fuel : Nat) (hfuel : 3 ≤ fuel) (rates : List ℚ)
    (hr : ∀ r ∈ rates, r = 10 ∨ r = 30) :
    ∃ ts, sendTicks mode binaryContent garbage fuel rates 0 0 = some ts ∧
      ts.map (fun t => t.sendRate) = rates ∧
      ∀ t ∈ ts, 0 ≤ t.sendAccumulator ∧ t.sendAccumulator ≤ 1 / 10 ∧
        t.sent.length ≤ 3 ∧ (t.sendRate = 10 → t.sent.length ≤ 1) := by
  obtain ⟨ts, hts, hrates, hall⟩ :=
    sendTicks_bounded mode binaryContent garbage hsize hg fuel hfuel rates 0 (le_refl _)
      (by norm_num) hr
  refine ⟨ts, hts, hrates, fun t ht => ?_⟩
  obtain ⟨hpos, hle, _, h3, h1, _⟩ := hall t ht
  exact ⟨le_of_lt hpos, hle, h3, h1⟩

/-- C19 at a server over the rates 10, 10, 10, 30: the fourth tick is the one that can
send 3 packets. -/
theorem bounded_burst_per_tick_witness :
    ([] : List Byte).length < 2 ^ 64 ∧
    (∀ k : Nat, ((fun _ => List.replicate 256 0 : Nat → List Byte) k).length = 256) ∧
    3 ≤ 3 ∧ (∀ r ∈ ([10, 10, 10, 30] : List ℚ), r = 10 ∨ r = 30) ∧
    ∃ ts, sendTicks Mode.Server [] (fun _ => List.replicate 256 0) 3 [10, 10, 10, 30] 0 0
        = some ts ∧
      ts.map (fun t => t.sendRate) = [10, 10, 10, 30] ∧
      ∀ t ∈ ts, 0 ≤ t.sendAccumulator ∧ t.sendAccumulator ≤ 1 / 10 ∧
        t.sent.length ≤ 3 ∧ (t.sendRate = 10 → t.sent.length ≤ 1) :=
  have hr : ∀ r ∈ ([10, 10, 10, 30] : List ℚ), r = 10 ∨ r = 30 := by
    intro r h
    simp only [List.mem_cons, List.mem_singleton, List.not_mem_nil, or_false] at h
    rcases h with h | h | h | h <;> simp [h]
  ⟨by decide, fun _ => List.length_replicate _ _, le_refl _, hr,
   bounded_burst_per_tick Mode.Server [] (fun _ => List.replicate 256 0) (by decide)
     (fun _ => List.length_replicate _ _) 3 (le_refl _) [10, 10, 10, 30] hr⟩

/-- A run of send steps starts with the step of its first tick. -/
theorem sendTicks_cons (mode : Mode) (binaryContent : List Byte) (garbage : Nat → List Byte)
    (fuel : Nat) (r b : ℚ) (rates : List ℚ) (t : SendTick)
    (hstep : sendStep mode binaryContent garbage fuel r b 0 = some t)
    (hidx : t.startingIndex = 0) :
    sendTicks mode binaryContent garbage fuel (r :: rates) b 0 =
      (sendTicks mode binaryContent garbage fuel rates t.sendAccumulator 0).map
        (fun ts => t :: ts) := by
  conv_lhs => unfold sendTicks
  rw [hstep]
  simp only []
  rw [hidx]

/-- At rate 10 from a budget of `c / 30` with `c ≤ 3`: a packet is sent exactly when
`c = 3`, and the budget moves to `1 / 30` then and to `(c + 1) / 30` otherwise. -/
theorem sendStep_ten (mode : Mode) (binaryContent : List Byte) (garbage : Nat → List Byte)
    (hsize : binaryContent.length < 2 ^ 64) (hg : ∀ k, (garbage k).length = 256)
    (fuel : Nat) (hfuel : 1 ≤ fuel) (c : Nat) (hc : c ≤ 3) :
    ∃ t, sendStep mode binaryContent garbage fuel 10 ((c : ℚ) / 30) 0 = some t ∧
      t.startingIndex = 0 ∧
      t.sendAccumulator = (((if c = 3 then 1 else c + 1 : Nat) : ℚ)) / 30 ∧
      t.sent.length = if c = 3 then 1 else 0 := by
  by_cases h3 : c = 3
  · subst h3
    refine ⟨_, sendStep_count mode binaryContent garbage hsize hg 10 _ 1 fuel hfuel
      (fun j hj => ?_) ?_, rfl, ?_, ?_⟩
    · have : j = 0 := by omega
      subst this
      norm_num [DeltaTime]
    · norm_num [DeltaTime]
    · norm_num [DeltaTime]
    · show (List.replicate 1 (List.replicate 256 (0 : Byte))).length = _
      rw [List.length_replicate, if_pos rfl]
  · refine ⟨_, sendStep_count mode binaryContent garbage hsize hg 10 _ 0 fuel (Nat.zero_le _)
      (fun j hj => absurd hj (Nat.not_lt_zero j)) ?_, rfl, ?_, ?_⟩
    · have hc' : (c : ℚ) ≤ 2 := by exact_mod_cast (by omega : c ≤ 2)
      unfold DeltaTime
      rw [not_lt]
      push_cast
      linarith
    · rw [if_neg h3]
      unfold DeltaTime
      push_cast
      ring
    · show (List.replicate 0 (List.replicate 256 (0 : Byte))).length = _
      rw [List.length_replicate, if_neg h3]

/-- At a constant rate of 10 from a budget of `c / 30` with `c ≤ 3`, tick `i` (counted
from 0) sends one packet when `c + i + 1` is at least 4 and leaves remainder 1 modulo 3,
and none otherwise. -/
theorem sendTicks_ten (mode : Mode) (binaryContent : List Byte) (garbage : Nat → List Byte)
    (hsize : binaryContent.length < 2 ^ 64) (hg : ∀ k, (garbage k).length = 256)
    (fuel : Nat) (hfuel : 1 ≤ fuel) (n : Nat) :
    ∀ c : Nat, c ≤ 3 →
    ∃ ts, sendTicks mode binaryContent garbage fuel (List.replicate n 10) ((c : ℚ) / 30) 0
        = some ts ∧
      ts.map (fun t => t.sent.length) =
        (List.range n).map
          (fun i => if 4 ≤ c + i + 1 ∧ (c + i + 1) % 3 = 1 then 1 else 0) := by
  induction n with
  | zero => intro c _; exact ⟨[], rfl, rfl⟩
  | succ n ih =>
    intro c hc
    obtain ⟨t, ht, hidx, hacc, hlen⟩ :=
      sendStep_ten mode binaryContent garbage hsize hg fuel hfuel c hc
    obtain ⟨ts, hts, hmap⟩ := ih (if c = 3 then 1 else c + 1) (by split_ifs <;> omega)
    refine ⟨t :: ts, ?_, ?_⟩
    · rw [List.replicate_succ, sendTicks_cons mode binaryContent garbage fuel 10 _ _ t ht hidx,
        hacc, hts]
      rfl
    · rw [List.map_cons, hmap, hlen, List.range_succ_eq_map, List.map_cons, List.map_map]
      congr 1
      · by_cases h3 : c = 3
        · subst h3; rfl
        · rw [if_neg h3, if_neg (by omega)]
      · refine List.map_congr_left fun i _ => ?_
        simp only [Function.comp_apply, Nat.succ_eq_add_one]
        by_cases h3 : c = 3
        · subst h3
          simp only [if_true]
          by_cases hi : 4 ≤ 1 + i + 1 ∧ (1 + i + 1) % 3 = 1
          · rw [if_pos hi, if_pos (by omega)]
          · rw [if_neg hi, if_neg (by omega)]
        · simp only [if_neg h3]
          by_cases hi : 4 ≤ c + 1 + i + 1 ∧ (c + 1 + i + 1) % 3 = 1
          · rw [if_pos hi, if_pos (by omega)]
          · rw [if_neg hi, if_neg (by omega)]

/-- At rate 30 from a budget of `1 / 30` exactly one packet is sent and the budget is
`1 / 30` again; from a budget of 0 no packet is sent and the budget becomes `1 / 30`. -/
theorem sendStep_thirty (mode : Mode) (binaryContent : List Byte) (garbage : Nat → List Byte)
    (hsize : binaryContent.length < 2 ^ 64) (hg : ∀ k, (garbage k).length = 256)
    (fuel : Nat) (hfuel : 1 ≤ fuel) :
    (∃ t, sendStep mode binaryContent garbage fuel 30 (1 / 30) 0 = some t ∧
      t.startingIndex = 0 ∧ t.sendAccumulator = 1 / 30 ∧ t.sent.length = 1) ∧
    (∃ t, sendStep mode binaryContent garbage fuel 30 0 0 = some t ∧
      t.startingIndex = 0 ∧ t.sendAccumulator = 1 / 30 ∧ t.sent.length = 0) := by
  constructor
  · refine ⟨_, sendStep_count mode binaryContent garbage hsize hg 30 _ 1 fuel hfuel
      (fun j hj => ?_) ?_, rfl, ?_, ?_⟩
    · have : j = 0 := by omega
      subst this
      norm_num [DeltaTime]
    · norm_num [DeltaTime]
    · norm_num [DeltaTime]
    · show (List.replicate 1 (List.replicate 256 (0 : Byte))).length = _
      rw [List.length_replicate]
  · refine ⟨_, sendStep_count mode binaryContent garbage hsize hg 30 _ 0 fuel (Nat.zero_le _)
      (fun j hj => absurd hj (Nat.not_lt_zero j)) ?_, rfl, ?_, ?_⟩
    · norm_num [DeltaTime]
    · norm_num [DeltaTime]
    · show (List.replicate 0 (List.replicate 256 (0 : Byte))).length = _
      rw [List.length_replicate]

/-- At a constant rate of 30 from a budget of `1 / 30` every tick sends one packet. -/
theorem sendTicks_thirty (mode : Mode) (binaryContent : List Byte)
    (garbage : Nat → List Byte) (hsize : binaryContent.length < 2 ^ 64)
    (hg : ∀ k, (garbage k).length = 256) (fuel : Nat) (hfuel : 1 ≤ fuel) (n : Nat) :
    ∃ ts, sendTicks mode binaryContent garbage fuel (List.replicate n 30) (1 / 30) 0
        = some ts ∧
      ts.map (fun t => t.sent.length) = List.replicate n 1 := by
  induction n with
  | zero => exact ⟨[], rfl, rfl⟩
  | succ n ih =>
    obtain ⟨⟨t, ht, hidx, hacc, hlen⟩, _⟩ :=
      sendStep_thirty mode binaryContent garbage hsize hg fuel hfuel
    obtain ⟨ts, hts, hmap⟩ := ih
    refine ⟨t :: ts, ?_, ?_⟩
    · rw [List.replicate_succ, sendTicks_cons mode binaryContent garbage fuel 30 _ _ t ht hidx,
        hacc, hts]
      rfl
    · rw [List.map_cons, hmap, hlen, List.replicate_succ]

/-- C20: with `DeltaTime = 1/30` and the budget starting at 0, at a constant rate of 10
tick `n` (counted from 1) sends one packet when `n ≥ 4` and `n mod 3 = 1` and none
otherwise, so the first 30 ticks send 9 packets; at a constant rate of 30 the first tick
sends no packet and every later tick sends exactly one. -/
theorem pacing_schedule (mode : Mode) (binaryContent : List Byte)
    (garbage : Nat → List Byte) (hsize : binaryContent.length < 2 ^ 64)
    (hg : ∀ k, (garbage k).length = 256) (fuel : Nat) (hfuel : 1 ≤ fuel) (n : Nat) :
    (∃ ts, sendTicks mode binaryContent garbage fuel (List.replicate n 10) 0 0 = some ts ∧
      ts.map (fun t => t.sent.length) =
        (List.range n).map (fun i => if 4 ≤ i + 1 ∧ (i + 1) % 3 = 1 then 1 else 0)) ∧
    (∃ ts, sendTicks mode binaryContent garbage fuel (List.replicate 30 10) 0 0 = some ts ∧
      (ts.map (fun t => t.sent.length)).sum = 9) ∧
    (∃ ts, sendTicks mode binaryContent garbage fuel (List.replicate (n + 1) 30) 0 0
        = some ts ∧
      ts.map (fun t => t.sent.length) = 0 :: List.replicate n 1) := by
  have hten : ∀ m : Nat,
      ∃ ts, sendTicks mode binaryContent garbage fuel (List.replicate m 10) 0 0 = some ts ∧
        ts.map (fun t => t.sent.length) =
          (List.range m).map (fun i => if 4 ≤ i + 1 ∧ (i + 1) % 3 = 1 then 1 else 0) := by
    intro m
    obtain ⟨ts, hts, hmap⟩ :=
      sendTicks_ten mode binaryContent garbage hsize hg fuel hfuel m 0 (by omega)
    refine ⟨ts, ?_, ?_⟩
    · rw [← hts]
      norm_num
    · rw [hmap]
      refine List.map_congr_left fun i _ => ?_
      rw [Nat.zero_add]
  refine ⟨hten n, ?_, ?_⟩
  · obtain ⟨ts, hts, hmap⟩ := hten 30
    refine ⟨ts, hts, ?_⟩
    rw [hmap]
    decide
  · obtain ⟨_, t, ht, hidx, hacc, hlen⟩ :=
      sendStep_thirty mode binaryContent garbage hsize hg fuel hfuel
    obtain ⟨ts, hts, hmap⟩ :=
      sendTicks_thirty mode binaryContent garbage hsize hg fuel hfuel n
    refine ⟨t :: ts, ?_, ?_⟩
    · rw [List.replicate_succ, sendTicks_cons mode binaryContent garbage fuel 30 _ _ t ht hidx,
        hacc, hts]
      rfl
    · rw [List.map_cons, hmap, hlen]

/-- C20 at a client over 7 ticks: at rate 10 the packets go out on ticks 4 and 7. -/
theorem pacing_schedule_witness :
    ([1, 2, 3] : List Byte).length < 2 ^ 64 ∧
    (∀ k : Nat, ((fun _ => List.replicate 256 9 : Nat → List Byte) k).length = 256) ∧
    1 ≤ 1 ∧
    (∃ ts, sendTicks Mode.Client [1, 2, 3] (fun _ => List.replicate 256 9) 1
        (List.replicate 7 10) 0 0 = some ts ∧
      ts.map (fun t => t.sent.length) = [0, 0, 0, 1, 0, 0, 1]) ∧
    (∃ ts, sendTicks Mode.Client [1, 2, 3] (fun _ => List.replicate 256 9) 1
        (List.replicate (7 + 1) 30) 0 0 = some ts ∧
      ts.map (fun t => t.sent.length) = 0 :: List.replicate 7 1) :=
  have h := pacing_schedule Mode.Client [1, 2, 3] (fun _ => List.replicate 256 9)
    (by decide) (fun _ => List.length_replicate _ _) 1 (le_refl _) 7
  ⟨by decide, fun _ => List.length_replicate _ _, le_refl _,
   h.1.imp (fun _ hts => ⟨hts.1, hts.2.trans (by decide)⟩), h.2.2⟩

/-- The stats loop under a transport that stays connected, told how many quarters of a
second the accumulator covers: with at least that much fuel it prints that many lines and
takes that many quarters off the accumulator. -/
theorem statsLoop_connected (isConnected : Nat → Bool) (hc : ∀ i, isConnected i = true) :
    ∀ (k fuel : Nat) (acc : ℚ) (printed : Nat), k ≤ fuel →
      (∀ j : Nat, j < k → acc - (j : ℚ) * (1 / 4) ≥ 1 / 4) →
      ¬ (acc - (k : ℚ) * (1 / 4) ≥ 1 / 4) →
      statsLoop isConnected fuel acc printed = some (acc - (k : ℚ) * (1 / 4), printed + k) := by
  intro k
  induction k with
  | zero =>
    intro fuel acc printed _ _ hstop
    have hstop' : ¬ (acc ≥ 1 / 4 ∧ isConnected printed = true) := by
      intro h
      exact hstop (by simpa using h.1)
    have hres : some (acc, printed) =
        some (acc - ((0 : Nat) : ℚ) * (1 / 4), printed + 0) := by
      simp only [Nat.cast_zero, zero_mul, sub_zero, Nat.add_zero]
    cases fuel with
    | zero => rw [statsLoop, if_neg hstop', hres]
    | succ fuel => rw [statsLoop, if_neg hstop', hres]
  | succ k ih =>
    intro fuel acc printed hfuel hgo hstop
    obtain ⟨fuel', rfl⟩ : ∃ fuel', fuel = fuel' + 1 := ⟨fuel - 1, by omega⟩
    have h0 : acc ≥ 1 / 4 ∧ isConnected printed = true :=
      ⟨by simpa using hgo 0 (Nat.succ_pos k), hc printed⟩
    have hrec := ih fuel' (acc - 1 / 4) (printed + 1) (by omega)
      (fun j hj => by
        have := hgo (j + 1) (by omega)
        push_cast at this
        linarith)
      (by
        push_cast at hstop
        intro h
        exact hstop (by linarith))
    rw [statsLoop, if_pos h0, hrec]
    congr 1
    refine Prod.ext ?_ ?_
    · show acc - 1 / 4 - (k : ℚ) * (1 / 4) = acc - ((k + 1 : Nat) : ℚ) * (1 / 4)
      push_cast
      ring
    · show printed + 1 + k = printed + (k + 1)
      omega

/-- The stats step under a transport that stays connected, from a budget `s ≥ 0`. -/
theorem statsStep_connected (isConnected : Nat → Bool) (hc : ∀ i, isConnected i = true)
    (s : ℚ) (hs : 0 ≤ s) (fuel : Nat) (hfuel : ⌊(s + 1 / 30) / (1 / 4)⌋₊ ≤ fuel) :
    statsStep isConnected fuel s =
      some (s + 1 / 30 - (⌊(s + 1 / 30) / (1 / 4)⌋₊ : ℚ) * (1 / 4),
            ⌊(s + 1 / 30) / (1 / 4)⌋₊) ∧
    0 ≤ s + 1 / 30 - (⌊(s + 1 / 30) / (1 / 4)⌋₊ : ℚ) * (1 / 4) ∧
    s + 1 / 30 - (⌊(s + 1 / 30) / (1 / 4)⌋₊ : ℚ) * (1 / 4) < 1 / 4 := by
  have hx : 0 ≤ (s + 1 / 30) / (1 / 4) := by
    apply div_nonneg <;> linarith
  have hdiv : (s + 1 / 30) / (1 / 4) = (s + 1 / 30) * 4 := by ring
  have hfl : (⌊(s + 1 / 30) / (1 / 4)⌋₊ : ℚ) ≤ (s + 1 / 30) * 4 :=
    le_of_le_of_eq (Nat.floor_le hx) hdiv
  have hlt : (s + 1 / 30) * 4 < (⌊(s + 1 / 30) / (1 / 4)⌋₊ : ℚ) + 1 :=
    lt_of_eq_of_lt hdiv.symm (Nat.lt_floor_add_one _)
  have hgo : ∀ j : Nat, j < ⌊(s + 1 / 30) / (1 / 4)⌋₊ →
      s + 1 / 30 - (j : ℚ) * (1 / 4) ≥ 1 / 4 := by
    intro j hj
    have : ((j + 1 : Nat) : ℚ) ≤ (⌊(s + 1 / 30) / (1 / 4)⌋₊ : ℚ) := by
      exact_mod_cast hj
    push_cast at this
    linarith
  have hstop : ¬ (s + 1 / 30 - (⌊(s + 1 / 30) / (1 / 4)⌋₊ : ℚ) * (1 / 4) ≥ 1 / 4) := by
    rw [not_le]
    linarith
  refine ⟨?_, by linarith, not_le.mp hstop⟩
  unfold statsStep DeltaTime
  rw [statsLoop_connected isConnected hc _ fuel _ 0 hfuel hgo hstop, Nat.zero_add]

/-- The stats step under a transport that is not connected prints nothing and keeps the
whole budget. -/
theorem statsStep_disconnected (isConnected : Nat → Bool) (hc : isConnected 0 = false)
    (s : ℚ) (fuel : Nat) :
    statsStep isConnected fuel s = some (s + 1 / 30, 0) := by
  have hstop : ¬ (s + DeltaTime ≥ 1 / 4 ∧ isConnected 0 = true) := by
    intro h
    rw [hc] at h
    exact absurd h.2 (by decide)
  unfold statsStep
  cases fuel with
  | zero => rw [statsLoop, if_neg hstop]; rfl
  | succ fuel => rw [statsLoop, if_neg hstop]; rfl

/-- The stats steps of a session that is connected all along, from a budget in
`[0, 1/4)`: every tick prints at most one line. -/
theorem statsTicksConnected_le_one (fuel : Nat) (hfuel : 1 ≤ fuel) (ticks : Nat) :
    ∀ s : ℚ, 0 ≤ s → s < 1 / 4 →
    ∃ counts, statsTicksConnected fuel ticks s = some counts ∧
      counts.length = ticks ∧ ∀ c ∈ counts, c ≤ 1 := by
  induction ticks with
  | zero =>
    intro s _ _
    exact ⟨[], rfl, rfl, fun c hc => absurd hc (List.not_mem_nil c)⟩
  | succ ticks ih =>
    intro s hs0 hs1
    have hk : ⌊(s + 1 / 30) / (1 / 4)⌋₊ ≤ 1 := by
      have : ⌊(s + 1 / 30) / (1 / 4)⌋₊ < 2 := by
        rw [Nat.floor_lt (by apply div_nonneg <;> linarith)]
        have hdiv : (s + 1 / 30) / (1 / 4) = (s + 1 / 30) * 4 := by ring
        rw [hdiv]
        push_cast
        linarith
      omega
    obtain ⟨hstep, h0, h1⟩ :=
      statsStep_connected (fun _ => true) (fun _ => rfl) s hs0 fuel (le_trans hk hfuel)
    obtain ⟨counts, hcounts, hlen, hall⟩ := ih _ h0 h1
    refine ⟨⌊(s + 1 / 30) / (1 / 4)⌋₊ :: counts, ?_, ?_, ?_⟩
    · rw [statsTicksConnected, hstep]
      simp only []
      rw [hcounts]
      rfl
    · rw [List.length_cons, hlen]
    · intro c hc
      rcases List.mem_cons.mp hc with hc | hc
      · rw [hc]; exact hk
      · exact hall c hc

/-- C15: from a reporting budget `s ≥ 0`, under a transport that is connected the stats
step returns, prints `⌊(s + 1/30) / 0.25⌋` lines and leaves the budget in `[0, 0.25)`;
under a transport that is not connected it prints nothing and leaves `s + 1/30`; and in
a session connected from its first tick every tick prints at most one line. -/
theorem stats_step_reports (s : ℚ) (hs : 0 ≤ s) :
    (∀ (isConnected : Nat → Bool) (fuel : Nat), (∀ i, isConnected i = true) →
        ⌊(s + 1 / 30) / (1 / 4)⌋₊ ≤ fuel →
        statsStep isConnected fuel s =
          some (s + 1 / 30 - (⌊(s + 1 / 30) / (1 / 4)⌋₊ : ℚ) * (1 / 4),
                ⌊(s + 1 / 30) / (1 / 4)⌋₊) ∧
        0 ≤ s + 1 / 30 - (⌊(s + 1 / 30) / (1 / 4)⌋₊ : ℚ) * (1 / 4) ∧
        s + 1 / 30 - (⌊(s + 1 / 30) / (1 / 4)⌋₊ : ℚ) * (1 / 4) < 1 / 4) ∧
    (∀ (isConnected : Nat → Bool) (fuel : Nat), isConnected 0 = false →
        statsStep isConnected fuel s = some (s + 1 / 30, 0)) ∧
    (∀ fuel ticks : Nat, 1 ≤ fuel →
        ∃ counts, statsTicksConnected fuel ticks 0 = some counts ∧
          counts.length = ticks ∧ ∀ c ∈ counts, c ≤ 1) :=
  ⟨fun isConnected fuel hc hfuel => statsStep_connected isConnected hc s hs fuel hfuel,
   fun isConnected fuel hc => statsStep_disconnected isConnected hc s fuel,
   fun fuel ticks hfuel =>
     statsTicksConnected_le_one fuel hfuel ticks 0 (le_refl _) (by norm_num)⟩

/-- C15 at a budget of 1 s: connected, the step prints the lines that
`⌊(1 + 1/30) / 0.25⌋` counts; not connected, it prints none. -/
theorem stats_step_reports_witness :
    (0 : ℚ) ≤ 1 ∧ (∀ i : Nat, (fun _ => true : Nat → Bool) i = true) ∧
    ⌊((1 : ℚ) + 1 / 30) / (1 / 4)⌋₊ ≤ 4 ∧
    statsStep (fun _ => true) 4 1 =
      some (1 + 1 / 30 - (⌊((1 : ℚ) + 1 / 30) / (1 / 4)⌋₊ : ℚ) * (1 / 4),
            ⌊((1 : ℚ) + 1 / 30) / (1 / 4)⌋₊) ∧
    (fun _ => false : Nat → Bool) 0 = false ∧
    statsStep (fun _ => false) 4 1 = some (1 + 1 / 30, 0) :=
  have hk : ⌊((1 : ℚ) + 1 / 30) / (1 / 4)⌋₊ ≤ 4 := by
    have : ⌊((1 : ℚ) + 1 / 30) / (1 / 4)⌋₊ < 5 := by
      rw [Nat.floor_lt (by norm_num)]
      norm_num
    omega
  ⟨by norm_num, fun _ => rfl, hk,
   ((stats_step_reports 1 (by norm_num)).1 (fun _ => true) 4 (fun _ => rfl) hk).1, rfl,
   (stats_step_reports 1 (by norm_num)).2.1 (fun _ => false) 4 rfl⟩

/-- The receive loop over packets that all carry data, followed by one more packet and
the answer 0: the file ends up as the write of that last packet leaves it. -/
theorem receiveLoop_last (rs : List Received) (last stop : Received)
    (hrs : ∀ r ∈ rs, r.bytes_read > 0) (hlast : last.bytes_read > 0)
    (hstop : stop.bytes_read = 0) :
    ∀ file : List Byte,
      receiveLoop (rs ++ [last] ++ [stop]) file =
        some (writeCharArrayToFile last.isOpen last.packet 256
          (rs.foldl (fun f r => writeCharArrayToFile r.isOpen r.packet 256 f) file)) := by
  have hstop' : ¬ stop.bytes_read > 0 := by rw [hstop]; decide
  induction rs with
  | nil =>
    intro file
    simp only [List.nil_append, List.cons_append, List.foldl_nil]
    rw [receiveLoop, if_pos hlast, receiveLoop, if_neg hstop', if_pos hstop]
  | cons r rs ih =>
    intro file
    have hr : r.bytes_read > 0 := hrs r (List.mem_cons_self _ _)
    simp only [List.cons_append, List.foldl_cons]
    rw [receiveLoop, if_pos hr]
    simpa using ih (fun x hx => hrs x (List.mem_cons_of_mem _ hx)) _

/-- C17: `writeCharArrayToFile` on a file that opens replaces the whole content by the
`dataSize` bytes given; after a receive loop that gets `n ≥ 1` packets with
`bytes_read > 0` the file holds the 256-byte receive buffer of the last packet and
nothing else; after a receive loop that gets no packet the file is unchanged. -/
theorem receiver_last_write_wins :
    (∀ (data file : List Byte) (dataSize : Nat),
        writeCharArrayToFile true data dataSize file = data.take dataSize) ∧
    (∀ (rs : List Received) (last stop : Received) (file : List Byte),
        (∀ r ∈ rs, r.bytes_read > 0) → last.bytes_read > 0 → last.packet.length = 256 →
        last.isOpen = true → stop.bytes_read = 0 →
        receiveLoop (rs ++ [last] ++ [stop]) file = some last.packet) ∧
    (∀ (stop : Received) (file : List Byte), stop.bytes_read = 0 →
        receiveLoop [stop] file = some file) := by
  refine ⟨fun data file dataSize => rfl, ?_, ?_⟩
  · intro rs last stop file hrs hlast hlen hopen hstop
    rw [receiveLoop_last rs last stop hrs hlast hstop file, hopen]
    show some (last.packet.take 256) = some last.packet
    rw [List.take_of_length_le (le_of_eq hlen)]
  · intro stop file hstop
    have hstop' : ¬ stop.bytes_read > 0 := by rw [hstop]; decide
    rw [receiveLoop, if_neg hstop', if_pos hstop]

/-- C17 at two packets of 256 bytes, the first all 1 and the second all 2, received into
a file that held 9, 9: the file ends as the second packet. -/
theorem receiver_last_write_wins_witness :
    (∀ r ∈ [Received.mk 256 (List.replicate 256 1) true], r.bytes_read > 0) ∧
    (Received.mk 3 (List.replicate 256 2) true).bytes_read > 0 ∧
    (Received.mk 3 (List.replicate 256 2) true).packet.length = 256 ∧
    (Received.mk 3 (List.replicate 256 2) true).isOpen = true ∧
    (Received.mk 0 [] false).bytes_read = 0 ∧
    receiveLoop ([Received.mk 256 (List.replicate 256 1) true] ++
        [Received.mk 3 (List.replicate 256 2) true] ++ [Received.mk 0 [] false]) [9, 9] =
      some (Received.mk 3 (List.replicate 256 2) true).packet :=
  have hrs : ∀ r ∈ [Received.mk 256 (List.replicate 256 1) true], r.bytes_read > 0 := by
    intro r hr
    rw [List.mem_singleton.mp hr]
    decide
  ⟨hrs, by decide, List.length_replicate _ _, rfl, rfl,
   receiver_last_write_wins.2.1 [Received.mk 256 (List.replicate 256 1) true]
     (Received.mk 3 (List.replicate 256 2) true) (Received.mk 0 [] false) [9, 9] hrs
     (by decide) (List.length_replicate _ _) rfl rfl⟩

end main

namespace FlowControl

/-- C18: an `Update` that changes the penalty time starts in `Good` mode and either drops
(`rtt > 250`) or reduces (`penalty_reduction_accumulator + deltaTime > 10`); every
`Update` that starts in `Bad` mode leaves the penalty time unchanged, promotion
included; every `Update` that starts in `Good` mode with `rtt ≤ 250` and
`penalty_reduction_accumulator + deltaTime ≤ 10` leaves it unchanged. -/
theorem penalty_time_frame (deltaTime rtt : ℚ) (fc : FlowControl) :
    ((Update deltaTime rtt fc).penalty_time ≠ fc.penalty_time →
        fc.mode = Mode.Good ∧
        (rtt > 250 ∨ fc.penalty_reduction_accumulator + deltaTime > 10)) ∧
    (fc.mode = Mode.Bad → (Update deltaTime rtt fc).penalty_time = fc.penalty_time) ∧
    (fc.mode = Mode.Good → rtt ≤ 250 →
        fc.penalty_reduction_accumulator + deltaTime ≤ 10 →
        (Update deltaTime rtt fc).penalty_time = fc.penalty_time) := by
  have hbad : fc.mode = Mode.Bad → (Update deltaTime rtt fc).penalty_time = fc.penalty_time := by
    intro hm
    have hu : Update deltaTime rtt fc = Update.badBlock deltaTime rtt fc := by
      unfold Update
      simp [hm]
    rw [hu, badBlock_penalty_time]
  have hgood : fc.mode = Mode.Good → rtt ≤ 250 →
      fc.penalty_reduction_accumulator + deltaTime ≤ 10 →
      (Update deltaTime rtt fc).penalty_time = fc.penalty_time := by
    intro hm hr ha
    have hr' : ¬ rtt > RTT_Threshold := not_lt.mpr hr
    have ha' : ¬ (fc.penalty_reduction_accumulator + deltaTime > 10) := not_lt.mpr ha
    unfold Update Update.goodBlock
    simp [hm, hr', ha']
  refine ⟨fun hne => ?_, hbad, hgood⟩
  cases hm : fc.mode with
  | Bad => exact absurd (hbad hm) hne
  | Good =>
    refine ⟨rfl, ?_⟩
    by_contra hc
    rw [not_or, not_lt, not_lt] at hc
    exact hne (hgood hm hc.1 hc.2)

/-- C18 at a promotion from the `Reset` state and at a quiet `Good` tick. -/
theorem penalty_time_frame_witness :
    (FlowControl.mk Mode.Bad 4 4 0).mode = Mode.Bad ∧
    (Update (1 / 30) 100 (FlowControl.mk Mode.Bad 4 4 0)).penalty_time =
      (FlowControl.mk Mode.Bad 4 4 0).penalty_time ∧
    (FlowControl.mk Mode.Good 8 3 3).mode = Mode.Good ∧ (100 : ℚ) ≤ 250 ∧
    (FlowControl.mk Mode.Good 8 3 3).penalty_reduction_accumulator + 1 / 30 ≤ 10 ∧
    (Update (1 / 30) 100 (FlowControl.mk Mode.Good 8 3 3)).penalty_time =
      (FlowControl.mk Mode.Good 8 3 3).penalty_time :=
  ⟨rfl, (penalty_time_frame (1 / 30) 100 (FlowControl.mk Mode.Bad 4 4 0)).2.1 rfl, rfl,
   by norm_num, by norm_num,
   (penalty_time_frame (1 / 30) 100 (FlowControl.mk Mode.Good 8 3 3)).2.2 rfl
     (by norm_num) (by norm_num)⟩

end FlowControl
